import Mathlib

/-!
Verification development for the nfreconfig-mcp-server repository.

The Go code manipulates parsed YAML/JSON documents represented as
`map[string]any` / `[]any` trees.  We embed that value universe as the
inductive type `Y` below.  Go map iteration order is unspecified; wherever
the source iterates over a map, the embedding fixes one concrete legal
order (noted at each definition).  Machine strings are Lean `String`s and
the two regular expressions of the source (`cidrRe`, `ipv4Re`) are embedded
as direct executable matchers with RE2 `FindAllString` semantics.
-/

/-- The value universe of a deserialized YAML/JSON document
(`map[string]any` trees of the Go source): strings, numbers, booleans,
null, string-keyed mappings and sequences.  Mappings are association
lists; Go maps cannot hold duplicate keys, and all lookups below use
first-occurrence semantics. -/
inductive Y where
  | s (v : String)
  | i (v : Int)
  | b (v : Bool)
  | null
  | m (es : List (String × Y))
  | a (xs : List Y)

mutual

/-- Boolean structural equality on `Y` (used to build `DecidableEq`). -/
def ybeq : Y → Y → Bool
  | .s a, .s b => a == b
  | .i a, .i b => a == b
  | .b a, .b b => a == b
  | .null, .null => true
  | .m a, .m b => ebeq a b
  | .a a, .a b => lbeq a b
  | _, _ => false

/-- Boolean equality on entry lists. -/
def ebeq : List (String × Y) → List (String × Y) → Bool
  | [], [] => true
  | (k, v) :: r, (k', v') :: r' => k == k' && ybeq v v' && ebeq r r'
  | _, _ => false

/-- Boolean equality on element lists. -/
def lbeq : List Y → List Y → Bool
  | [], [] => true
  | v :: r, v' :: r' => ybeq v v' && lbeq r r'
  | _, _ => false

end

mutual

/-- Size of a document tree (used only to drive mutual induction). -/
def ysize : Y → Nat
  | .s _ => 1
  | .i _ => 1
  | .b _ => 1
  | .null => 1
  | .m es => 1 + esize es
  | .a xs => 1 + lsize xs

/-- Size of an entry list. -/
def esize : List (String × Y) → Nat
  | [] => 0
  | (_, v) :: r => ysize v + esize r

/-- Size of an element list. -/
def lsize : List Y → Nat
  | [] => 0
  | v :: r => ysize v + lsize r

end

theorem ybeq_refl : ∀ a : Y, ybeq a a = true := by
  apply ysize.induct (motive_1 := fun a => ybeq a a = true)
    (motive_2 := fun xs => lbeq xs xs = true)
    (motive_3 := fun es => ebeq es es = true) <;>
  intros <;> simp_all [ybeq, ebeq, lbeq]

theorem ybeq_sound : ∀ a b : Y, ybeq a b = true → a = b := by
  have h := ysize.induct (motive_1 := fun a => ∀ b, ybeq a b = true → a = b)
    (motive_2 := fun xs => ∀ ys, lbeq xs ys = true → xs = ys)
    (motive_3 := fun es => ∀ fs, ebeq es fs = true → es = fs)
  apply h
  case case1 => intro v b; cases b <;> simp [ybeq]
  case case2 => intro v b; cases b <;> simp [ybeq]
  case case3 => intro v b; cases b <;> simp [ybeq]
  case case4 => intro b; cases b <;> simp [ybeq]
  case case5 =>
    intro es ih b
    cases b <;> simp [ybeq]
    exact fun hh => ih _ hh
  case case6 =>
    intro xs ih b
    cases b <;> simp [ybeq]
    exact fun hh => ih _ hh
  case case7 => intro fs; cases fs <;> simp [ebeq]
  case case8 =>
    intro k v r ih1 ih2 fs
    cases fs with
    | nil => simp [ebeq]
    | cons kv rest =>
      obtain ⟨k', v'⟩ := kv
      simp only [ebeq, Bool.and_eq_true, beq_iff_eq]
      rintro ⟨⟨hk, hv⟩, hr⟩
      rw [hk, ih1 _ hv, ih2 _ hr]
  case case9 => intro ys; cases ys <;> simp [lbeq]
  case case10 =>
    intro v r ih1 ih2 ys
    cases ys with
    | nil => simp [lbeq]
    | cons v' rest =>
      simp only [lbeq, Bool.and_eq_true]
      rintro ⟨hv, hr⟩
      rw [ih1 _ hv, ih2 _ hr]

theorem ybeq_iff (a b : Y) : ybeq a b = true ↔ a = b :=
  ⟨ybeq_sound a b, fun h => h ▸ ybeq_refl a⟩

instance : DecidableEq Y := fun a b => decidable_of_iff (ybeq a b = true) (ybeq_iff a b)

/-! ## Go string helpers

`strings.TrimSpace`, `strings.TrimSuffix`, `strings.Contains`,
`strings.ToLower` as used by the source (inputs are ASCII throughout the
repository; the space set below is Go's Latin-1 white-space set). -/

/-- Characters treated as white space by Go `unicode.IsSpace` in the
Latin-1 range. -/
def goSpace (c : Char) : Bool :=
  c == ' ' || c == '\t' || c == '\n' || c == '\x0b' || c == '\x0c' ||
  c == '\r' || c == '\x85' || c == '\xa0'

/-- `strings.TrimSpace`. -/
def trimSpace (s : String) : String :=
  String.mk (((s.data.dropWhile goSpace).reverse.dropWhile goSpace).reverse)

/-- `strings.TrimSuffix`. -/
def trimSuffix (s suf : String) : String :=
  if suf.data.isSuffixOf s.data then String.mk (s.data.take (s.data.length - suf.data.length)) else s

/-- `strings.ToLower` (ASCII). -/
def lowerStr (s : String) : String := String.mk (s.data.map Char.toLower)

/-- Whether `needle` occurs as a contiguous substring of `hay`
(`strings.Contains`). -/
def containsSub (hay needle : String) : Bool :=
  let rec go : List Char → Bool
    | [] => needle.data.isPrefixOf []
    | c :: rest => needle.data.isPrefixOf (c :: rest) || go rest
  go hay.data

/-! ## The two regular expressions

`cidrRe = \b(\d{1,3}\.){3}\d{1,3}/\d{1,2}\b` and
`ipv4Re = \b(\d{1,3}\.){3}\d{1,3}\b` over `FindAllString` (leftmost,
non-overlapping).  Because every quantified class is `\d` followed by a
non-digit literal or a word boundary, the backtracking search at a given
start position succeeds exactly when each maximal digit run has the
length demanded and is followed by the demanded literal/boundary, which
the matchers below implement directly. -/

/-- RE2 word characters (`\b` is defined against `[0-9A-Za-z_]`). -/
def isWordC (c : Char) : Bool := c.isAlphanum || c == '_'

/-- Match one `\d{1,3}\.` group at the head of the input, returning the
consumed characters and the rest. -/
def octetDot (cs : List Char) : Option (List Char × List Char) :=
  let p := cs.span Char.isDigit
  if p.1.length == 0 || decide (3 < p.1.length) then none
  else match p.2 with
    | '.' :: r => some (p.1 ++ ['.'], r)
    | _ => none

/-- Match a final `\d{n,m}` run followed by a word boundary. -/
def finalRun (lo hi : Nat) (cs : List Char) : Option (List Char × List Char) :=
  let p := cs.span Char.isDigit
  if decide (lo ≤ p.1.length) && decide (p.1.length ≤ hi) &&
     (p.2.isEmpty || !(isWordC (p.2.headD ' '))) then some (p.1, p.2) else none

/-- Match `(\d{1,3}\.){3}\d{1,3}\b` at the head of the input. -/
def matchIPv4At (cs : List Char) : Option (List Char × List Char) := do
  let (a, r1) ← octetDot cs
  let (b, r2) ← octetDot r1
  let (c, r3) ← octetDot r2
  let (d, r4) ← finalRun 1 3 r3
  pure (a ++ b ++ c ++ d, r4)

/-- Match `(\d{1,3}\.){3}\d{1,3}/\d{1,2}\b` at the head of the input. -/
def matchCIDRAt (cs : List Char) : Option (List Char × List Char) := do
  let (a, r1) ← octetDot cs
  let (b, r2) ← octetDot r1
  let (c, r3) ← octetDot r2
  let p := r3.span Char.isDigit
  if p.1.length == 0 || decide (3 < p.1.length) then none
  else match p.2 with
    | '/' :: r4 => do
        let (e, r5) ← finalRun 1 2 r4
        pure (a ++ b ++ c ++ p.1 ++ ['/'] ++ e, r5)
    | _ => none

/-- `FindAllString` driver: scan left to right; `prev` is the previous
character (for the leading word boundary), `skip` the number of
characters still covered by the previous match. -/
def scanAllGo (matchAt : List Char → Option (List Char × List Char)) :
    List Char → Option Char → Nat → List (List Char)
  | [], _, _ => []
  | c :: rest, _, Nat.succ k => scanAllGo matchAt rest (some c) k
  | c :: rest, prev, 0 =>
    let bOK := match prev with
      | none => true
      | some pc => !(isWordC pc)
    match (if bOK then matchAt (c :: rest) else none) with
    | some (mtc, _) => mtc :: scanAllGo matchAt rest (some c) (mtc.length - 1)
    | none => scanAllGo matchAt rest (some c) 0

/-- `cidrRe.FindAllString(s, -1)`. -/
def findAllCIDR (s : String) : List String :=
  (scanAllGo matchCIDRAt s.data none 0).map String.mk

/-- `ipv4Re.FindAllString(s, -1)`. -/
def findAllIPv4 (s : String) : List String :=
  (scanAllGo matchIPv4At s.data none 0).map String.mk

/-- `cidrRe.MatchString`. -/
def cidrMatch (s : String) : Bool := !(findAllCIDR s).isEmpty

/-- `ipv4Re.MatchString`. -/
def ipv4Match (s : String) : Bool := !(findAllIPv4 s).isEmpty

/-! ## Multi-document splitting (`splitYAMLDocuments`)

`repos_scan_cudu_plan_inputs.go`: split the file content on `"\n"`,
treat every line whose trimmed content is `"---"` as a separator, and
join each group of lines back with `"\n"`. -/

/-- `strings.Split(s, "\n")` (single-character separator). -/
def splitNLAux : List Char → List Char → List String
  | [], cur => [String.mk cur.reverse]
  | '\n' :: rest, cur => String.mk cur.reverse :: splitNLAux rest []
  | c :: rest, cur => splitNLAux rest (c :: cur)

/-- Split a string into its lines at `'\n'` (Go `strings.Split`
semantics: one more part than separators, empty input gives `[""]`). -/
def splitNL (s : String) : List String := splitNLAux s.data []

/-- `strings.Join(parts, "\n")`. -/
def joinNL : List String → String
  | [] => ""
  | [x] => x
  | x :: rest => x ++ "\n" ++ joinNL rest

/-- Whether a line is a document separator (`strings.TrimSpace(line) == "---"`). -/
def isSepLine (l : String) : Bool := trimSpace l == "---"

/-- Group the lines of a file between separator lines (the loop body of
`splitYAMLDocuments`). -/
def docGroups : List String → List (List String)
  | [] => [[]]
  | l :: ls =>
    if isSepLine l then [] :: docGroups ls
    else match docGroups ls with
      | g :: gs => (l :: g) :: gs
      | [] => [[l]]

/-- `splitYAMLDocuments` of the source. -/
def splitYAMLDocuments (src : String) : List String :=
  (docGroups (splitNL src)).map (fun g => joinNL g)

theorem docGroups_ne_nil (ls : List String) : docGroups ls ≠ [] := by
  induction ls with
  | nil => simp [docGroups]
  | cons l ls ih =>
    simp only [docGroups]
    split
    · simp
    · cases h : docGroups ls <;> simp

theorem docGroups_length (ls : List String) :
    (docGroups ls).length = ls.countP isSepLine + 1 := by
  induction ls with
  | nil => simp [docGroups]
  | cons l ls ih =>
    simp only [docGroups, List.countP_cons]
    split
    · simp_all
    · cases h : docGroups ls with
      | nil => exact absurd h (docGroups_ne_nil ls)
      | cons g gs => simp_all

theorem docGroups_join (ls : List String) :
    (docGroups ls).flatten = ls.filter (fun l => !(isSepLine l)) := by
  induction ls with
  | nil => simp [docGroups]
  | cons l ls ih =>
    simp only [docGroups, List.filter_cons]
    split
    · simp_all
    · cases h : docGroups ls with
      | nil => exact absurd h (docGroups_ne_nil ls)
      | cons g gs => simp_all

/-! ## Topology extraction (`extractNetworkInterfaces`)

`repos_scan_cudu_plan_inputs.go:284-403`.  The walker `walkAny` invokes
the visitor on every key/value pair of every mapping (passing the path of
keys/indices to the parent) and recurses into values; sequence elements
are recursed into without a visit.  Go iterates maps in unspecified
order; the embedding iterates entries in list order (the visit of an
entry precedes the recursion into it, as in the source). -/

/-- A named interface with its associated CIDRs and IPs
(`NetworkInterface` of the source). -/
structure NetworkInterface where
  name : String
  cidrs : List String
  ips : List String
deriving DecidableEq

/-- Append `x` unless already present: one `seen`-map guarded append of
the source. -/
def dedupAppend (xs : List String) (x : String) : List String :=
  if xs.contains x then xs else xs ++ [x]

/-- Fold `dedupAppend` over a list of found matches. -/
def dedupAppendAll (xs news : List String) : List String :=
  news.foldl dedupAppend xs

/-- `interfaceMap[nm] == nil` check plus creation. -/
def accEnsure (acc : List NetworkInterface) (nm : String) : List NetworkInterface :=
  if acc.any (fun b => b.name == nm) then acc else acc ++ [⟨nm, [], []⟩]

/-- Add all CIDR and IPv4 matches of the string `s` to the binding named
`nm` (deduplicated). -/
def accScanString (acc : List NetworkInterface) (nm : String) (s : String) :
    List NetworkInterface :=
  acc.map (fun b =>
    if b.name == nm then
      { b with cidrs := dedupAppendAll b.cidrs (findAllCIDR s),
               ips := dedupAppendAll b.ips (findAllIPv4 s) }
    else b)

/-- Keys recognized as interface-name carriers
(`key == "name" || key == "interfaceName" || key == "interface"`). -/
def nameKeyB (k : String) : Bool :=
  k == "name" || k == "interfaceName" || k == "interface"

/-- A path segment providing network/interface context (ancestor rule of
the source: substring `interface` or `network` in lowered form, or a
literal 5G token). -/
def pathCtxSeg (p : String) : Bool :=
  containsSub (lowerStr p) "interface" || containsSub (lowerStr p) "network" ||
  p == "n2" || p == "n3" || p == "n4" || p == "n6"

/-- A sibling key suggesting network context (substring `ip`, `subnet`,
`gateway` or `cidr` in lowered form). -/
def sibCtxKey (k : String) : Bool :=
  containsSub (lowerStr k) "ip" || containsSub (lowerStr k) "subnet" ||
  containsSub (lowerStr k) "gateway" || containsSub (lowerStr k) "cidr"

/-- A key whose string value is harvested for IPs/CIDRs once an interface
name is inferred (the `sibCtxKey` set plus substring `address`). -/
def harvestKey (k : String) : Bool :=
  sibCtxKey k || containsSub (lowerStr k) "address"

/-- `strings.HasPrefix`. -/
def hasPfx (s pre : String) : Bool := pre.data.isPrefixOf s.data

/-- A path segment that seeds a binding by itself: a literal 5G token or
a token followed by an underscore. -/
def tokenSeg (p : String) : Bool :=
  p == "n2" || p == "n3" || p == "n4" || p == "n6" ||
  hasPfx p "n2_" || hasPfx p "n3_" || hasPfx p "n4_" || hasPfx p "n6_"

/-- Interface name inferred at a visit, or `""` (the first block of the
visitor). -/
def inferIfName (path : List String) (key : String) (parent : List (String × Y))
    (val : Y) : String :=
  if nameKeyB key then
    match val with
    | .s s =>
      if s == "" then ""
      else if path.any pathCtxSeg then s
      else if parent.any (fun kv => sibCtxKey kv.1) then s
      else ""
    | _ => ""
  else ""

/-- Harvest IPs/CIDRs for binding `nm` from every string sibling under a
harvest key (second block of the visitor). -/
def harvestParent (acc : List NetworkInterface) (nm : String)
    (parent : List (String × Y)) : List NetworkInterface :=
  parent.foldl (fun a kv =>
    match kv.2 with
    | .s sv => if harvestKey kv.1 then accScanString a nm sv else a
    | _ => a) acc

/-- Token-segment seeding (third block of the visitor): every path
segment that is a 5G token (or token-underscore-prefixed) seeds a binding
under that literal segment and harvests the current value only. -/
def tokenSeed (acc : List NetworkInterface) (path : List String) (val : Y) :
    List NetworkInterface :=
  path.foldl (fun a p =>
    if tokenSeg p then
      let a' := accEnsure a p
      match val with
      | .s sv => accScanString a' p sv
      | _ => a'
    else a) acc

/-- The complete visitor of `extractNetworkInterfaces`. -/
def extractVisit (acc : List NetworkInterface) (path : List String) (key : String)
    (parent : List (String × Y)) (val : Y) : List NetworkInterface :=
  let nm := inferIfName path key parent val
  let acc1 := if nm == "" then acc else harvestParent (accEnsure acc nm) nm parent
  tokenSeed acc1 path val

mutual

/-- Walk a value, threading the extraction accumulator (`walkAny`
specialised to the extraction visitor). -/
def exFoldY : Y → List String → List NetworkInterface → List NetworkInterface
  | .m es, path, acc => exFoldEntries es es path acc
  | .a xs, path, acc => exFoldElems xs path 0 acc
  | _, _, acc => acc

/-- Walk the entries of a mapping: visit each entry, then recurse into
its value. -/
def exFoldEntries : List (String × Y) → List (String × Y) → List String →
    List NetworkInterface → List NetworkInterface
  | [], _, _, acc => acc
  | (k, v) :: rest, parent, path, acc =>
    exFoldEntries rest parent path (exFoldY v (path ++ [k]) (extractVisit acc path k parent v))

/-- Walk the elements of a sequence (no visit at this level; the index is
appended to the path as `[i]`). -/
def exFoldElems : List Y → List String → Nat → List NetworkInterface →
    List NetworkInterface
  | [], _, _, acc => acc
  | v :: rest, path, idx, acc =>
    exFoldElems rest path (idx + 1) (exFoldY v (path ++ ["[" ++ toString idx ++ "]"]) acc)

end

/-- Lexicographic `≤` on character lists by Unicode scalar value (for
ASCII inputs this is Go's byte-wise string order). -/
def chLeL : List Char → List Char → Bool
  | [], _ => true
  | _ :: _, [] => false
  | a :: as, b :: bs => decide (a.toNat < b.toNat) || (a == b && chLeL as bs)

/-- String `≤` used for `sort.Strings` / `sort.Slice` in the source. -/
def strLeB (s t : String) : Bool := chLeL s.data t.data

/-- Insert into a `le`-sorted list. -/
def ordInsert (le : α → α → Bool) (x : α) : List α → List α
  | [] => [x]
  | y :: ys => if le x y then x :: y :: ys else y :: ordInsert le x ys

/-- Insertion sort by a boolean `le` (sorting is only applied to lists
with pairwise-distinct elements here, so it computes the unique sorted
arrangement that any Go sort produces). -/
def insSortBy (le : α → α → Bool) : List α → List α
  | [] => []
  | x :: xs => ordInsert le x (insSortBy le xs)

/-- Keep only non-empty bindings, sort each binding's lists, sort
bindings by name (tail of `extractNetworkInterfaces`). -/
def finalizeIfaces (acc : List NetworkInterface) : List NetworkInterface :=
  insSortBy (fun x y => strLeB x.name y.name)
    ((acc.filter (fun b => !(b.cidrs.isEmpty) || !(b.ips.isEmpty))).map
      (fun b => { b with cidrs := insSortBy strLeB b.cidrs,
                         ips := insSortBy strLeB b.ips }))

/-- `extractNetworkInterfaces` of the source: walk the object tree and
extract network interfaces with their associated IPs and CIDRs. -/
def extractNetworkInterfaces (obj : List (String × Y)) : List NetworkInterface :=
  finalizeIfaces (exFoldY (.m obj) [] [])

/-! ## The interface-targeted patch engine

`manifest_patch_cucp_ips_many.go`.  `walkAny` visits every key/value
pair of every mapping; the only key whose visit has an effect is
`"name"` (`patchByInterfaceContext`) so any Go iteration order is,
observationally, some interleaving of that one effectful visit with the
recursive descents.  The embedding fixes the order in which the `"name"`
visit of a mapping happens after the descent into all of the mapping's
entries (a legal order, since Go map iteration order is unspecified). -/

/-- Desired address/gateway for one interface (`IPInfo` of the source;
the Go zero value of a string field is `""`). -/
structure IPInfo where
  address : String
  gateway : String
deriving DecidableEq

/-- Go map indexing on a `map[string]any` (first occurrence). -/
def lookupE : List (String × Y) → String → Option Y
  | [], _ => none
  | (k', v) :: r, k => if k' == k then some v else lookupE r k

/-- Go map assignment to an existing key (every assignment performed by
the patch engine is guarded by a successful read of the same key, so no
insertion case is needed). -/
def setE : List (String × Y) → String → Y → List (String × Y)
  | [], _, _ => []
  | (k', v) :: r, k, nv => if k' == k then (k', nv) :: r else (k', v) :: setE r k nv

/-- Go map indexing on the caller-supplied `newIps` map. -/
def lookupIP : List (String × IPInfo) → String → Option IPInfo
  | [], _ => none
  | (k', v) :: r, k => if k' == k then some v else lookupIP r k

/-- One guarded write of `patchByInterfaceContext`: overwrite the string
value at `k` with `desired` when `desired` is non-empty and the current
value differs (`if a, ok := parent[k].(string); ok && desired != "" && a != desired`).
Returns the updated mapping and whether the write happened. -/
def setIfDiff (es : List (String × Y)) (k : String) (desired : String) :
    List (String × Y) × Bool :=
  match lookupE es k with
  | some (.s a) =>
    if desired != "" && a != desired then (setE es k (.s desired), true) else (es, false)
  | _ => (es, false)

/-- The visitor body of `patchByInterfaceContext` acting on one mapping:
if the mapping's `name` resolves in `ips`, overwrite differing
`address`/`gateway` string siblings and the `address`/`gateway` string
entries of a nested `ipv4` mapping (which is then reassigned to the
parent, as in the source).  Returns the updated mapping and whether any
write occurred. -/
def trigger (ips : List (String × IPInfo)) (es : List (String × Y)) :
    List (String × Y) × Bool :=
  match lookupE es "name" with
  | some (.s rawName) =>
    match lookupIP ips (trimSpace rawName) with
    | some ip =>
      let s1 := setIfDiff es "address" ip.address
      let s2 := setIfDiff s1.1 "gateway" ip.gateway
      let s3 : List (String × Y) × Bool :=
        match lookupE s2.1 "ipv4" with
        | some (.m im) =>
          let t1 := setIfDiff im "address" ip.address
          let t2 := setIfDiff t1.1 "gateway" ip.gateway
          (setE s2.1 "ipv4" (.m t2.1), t1.2 || t2.2)
        | _ => (s2.1, false)
      (s3.1, s1.2 || s2.2 || s3.2)
    | none => (es, false)
  | _ => (es, false)

mutual

/-- Recursive interface-targeted patch of a value: descend into all
children, then apply the `"name"`-visit action of this mapping. -/
def patchY : Y → List (String × IPInfo) → Y × Bool
  | .m es, ips =>
    let r := patchEntriesGo es ips
    let t := trigger ips r.1
    (.m t.1, r.2 || t.2)
  | .a xs, ips =>
    let r := patchElemsGo xs ips
    (.a r.1, r.2)
  | v, _ => (v, false)

/-- Patch each entry value of a mapping. -/
def patchEntriesGo : List (String × Y) → List (String × IPInfo) →
    List (String × Y) × Bool
  | [], _ => ([], false)
  | (k, v) :: rest, ips =>
    let rv := patchY v ips
    let rr := patchEntriesGo rest ips
    ((k, rv.1) :: rr.1, rv.2 || rr.2)

/-- Patch each element of a sequence. -/
def patchElemsGo : List Y → List (String × IPInfo) → List Y × Bool
  | [], _ => ([], false)
  | v :: rest, ips =>
    let rv := patchY v ips
    let rr := patchElemsGo rest ips
    (rv.1 :: rr.1, rv.2 || rr.2)

end

/-- `patchByInterfaceContext` of the source: walk the object, and
whenever a mapping's `name` resolves in the interface map, overwrite
differing sibling `address`/`gateway` values (directly and under a
nested `ipv4` mapping). -/
def patchByInterfaceContext (ips : List (String × IPInfo))
    (obj : List (String × Y)) : List (String × Y) × Bool :=
  let r := patchEntriesGo obj ips
  let t := trigger ips r.1
  (t.1, r.2 || t.2)

/-- The visitor body of `patchStringFieldsInMap` acting on one visited
string value: overwrite a whole `address` (CIDR-looking) or `gateway`
(IPv4-looking) value when the parent's `name` resolves in `ips` and the
trimmed value differs from the desired one. -/
def strFieldRewrite (ips : List (String × IPInfo)) (nameVal : Option Y)
    (k : String) (raw : String) : String × Bool :=
  if k == "address" && cidrMatch (trimSpace raw) then
    match lookupIP ips (trimSpace (match nameVal with | some (.s n) => n | _ => "")) with
    | some ip =>
      if ip.address != "" && trimSpace raw != ip.address then (ip.address, true)
      else (raw, false)
    | none => (raw, false)
  else if k == "gateway" && ipv4Match (trimSpace raw) then
    match lookupIP ips (trimSpace (match nameVal with | some (.s n) => n | _ => "")) with
    | some ip =>
      if ip.gateway != "" && trimSpace raw != ip.gateway then (ip.gateway, true)
      else (raw, false)
    | none => (raw, false)
  else (raw, false)

mutual

/-- Recursive string-field patch of a value (`patchStringFieldsInMap`
walk; the visitor only rewrites the visited entry itself and only reads
the sibling `name`, which it never writes, so any Go iteration order
gives this result). -/
def pstrY : Y → List (String × IPInfo) → Y × Bool
  | .m es, ips =>
    let r := pstrEntries es (lookupE es "name") ips
    (.m r.1, r.2)
  | .a xs, ips =>
    let r := pstrElems xs ips
    (.a r.1, r.2)
  | v, _ => (v, false)

/-- Rewrite the string entries of a mapping and recurse into the
non-string ones; `nameVal` is the mapping's `name` value. -/
def pstrEntries : List (String × Y) → Option Y → List (String × IPInfo) →
    List (String × Y) × Bool
  | [], _, _ => ([], false)
  | (k, .s raw) :: rest, nameVal, ips =>
    let rw := strFieldRewrite ips nameVal k raw
    let rr := pstrEntries rest nameVal ips
    ((k, .s rw.1) :: rr.1, rw.2 || rr.2)
  | (k, v) :: rest, nameVal, ips =>
    let rv := pstrY v ips
    let rr := pstrEntries rest nameVal ips
    ((k, rv.1) :: rr.1, rv.2 || rr.2)

/-- Rewrite the elements of a sequence. -/
def pstrElems : List Y → List (String × IPInfo) → List Y × Bool
  | [], _ => ([], false)
  | v :: rest, ips =>
    let rv := pstrY v ips
    let rr := pstrElems rest ips
    (rv.1 :: rr.1, rv.2 || rr.2)

end

/-- `patchStringFieldsInMap` of the source (fallback string-field patch:
no substring replacement is performed; whole `address`/`gateway` values
are overwritten when the sibling `name` resolves). -/
def patchStringFieldsInMap (ips : List (String × IPInfo))
    (m : List (String × Y)) : List (String × Y) × Bool :=
  pstrEntries m (lookupE m "name") ips

/-- `u.GetKind()`: the `kind` entry when it is a string, else `""`. -/
def getKindOf (obj : List (String × Y)) : String :=
  match lookupE obj "kind" with
  | some (.s k) => k
  | _ => ""

/-- `u.GetAPIVersion()`. -/
def getAPIVersionOf (obj : List (String × Y)) : String :=
  match lookupE obj "apiVersion" with
  | some (.s v) => v
  | _ => ""

/-- `u.GetName()` (`metadata.name`). -/
def getNameOf (obj : List (String × Y)) : String :=
  match lookupE obj "metadata" with
  | some (.m md) =>
    match lookupE md "name" with
    | some (.s n) => n
    | _ => ""
  | _ => ""

/-- `u.GetNamespace()` (`metadata.namespace`). -/
def getNamespaceOf (obj : List (String × Y)) : String :=
  match lookupE obj "metadata" with
  | some (.m md) =>
    match lookupE md "namespace" with
    | some (.s n) => n
    | _ => ""
  | _ => ""

/-- `patchNADSpecConfig` of the source.  The JSON codec is external
(`encoding/json`): it is abstracted by the parameters `jparse`
(`tryParseJSONConfigString`, which trims and unmarshals into a string
map, `none` on failure) and `jmarshal` (`json.Marshal`, modelled total).
`unstructured.NestedMap` returns a deep copy of `spec`, so in the
non-JSON fallback the mutation of the copy is discarded while its
changed flag is still reported, exactly as in the source. -/
def patchNADSpecConfig (jparse : String → Option (List (String × Y)))
    (jmarshal : List (String × Y) → String) (ips : List (String × IPInfo))
    (obj : List (String × Y)) : List (String × Y) × Bool :=
  match lookupE obj "spec" with
  | some (.m sp) =>
    match lookupE sp "config" with
    | some (.s cfg) =>
      if trimSpace cfg == "" then (obj, false)
      else
        match jparse (trimSpace cfg) with
        | none => (obj, (patchStringFieldsInMap ips sp).2)
        | some jm =>
          let r1 := patchByInterfaceContext ips jm
          let r2 := patchStringFieldsInMap ips r1.1
          if r1.2 || r2.2 then
            (setE obj "spec" (.m (setE sp "config" (.s (jmarshal r2.1)))), true)
          else (obj, false)
    | _ => (obj, false)
  | _ => (obj, false)

/-- One loop iteration of the `manifest_patch_cucp_ips` handler for a
target whose file was read and parsed successfully into the mapping
`disk`: compute the mutation according to the (declared or detected)
kind, and persist it only when something changed and dry-run is off.
Returns the resulting on-disk document and the reported `changed`
flag. -/
def runPatchTarget (jparse : String → Option (List (String × Y)))
    (jmarshal : List (String × Y) → String) (ips : List (String × IPInfo))
    (dryRun : Bool) (tKind : String) (disk : List (String × Y)) :
    List (String × Y) × Bool :=
  let kind := if tKind == "" then getKindOf disk else tKind
  let r1 := if kind == "NFDeployment" then patchByInterfaceContext ips disk else (disk, false)
  let r2 :=
    if kind == "NetworkAttachmentDefinition" then patchNADSpecConfig jparse jmarshal ips r1.1
    else (r1.1, false)
  let changed := r1.2 || r2.2
  (if changed && !dryRun then r2.1 else disk, changed)

/-! ## Cross-document merge of bindings

`scanClusterTopologyWithClients` (cluster scan): interface bindings
extracted from the documents of one scan batch are concatenated, then
deduplicated by name — merging appends the later binding's lists to the
earlier one's — each binding's lists are sorted and the bindings are
sorted by name. -/

/-- One step of the `ifaceMap` deduplication loop. -/
def mergeAdd (acc : List NetworkInterface) (i : NetworkInterface) :
    List NetworkInterface :=
  if acc.any (fun b => b.name == i.name) then
    acc.map (fun b =>
      if b.name == i.name then
        { b with cidrs := b.cidrs ++ i.cidrs, ips := b.ips ++ i.ips }
      else b)
  else acc ++ [i]

/-- The merge/sort tail of `scanClusterTopologyWithClients`
(part_000:971-992). -/
def mergeIfacesByName (l : List NetworkInterface) : List NetworkInterface :=
  insSortBy (fun a b => strLeB a.name b.name)
    ((l.foldl mergeAdd []).map (fun b =>
      { b with cidrs := insSortBy strLeB b.cidrs, ips := insSortBy strLeB b.ips }))

/-! ## Clone-or-open (`mapper.go`, tool `git.clone_or_open_many`)

External `git` processes are abstracted by a success oracle
`ok : List String → Bool` on the argument list; the functions below
return the trace of git commands issued (in order) together with the
error outcome, mirroring the control flow of `cloneOrOpenOneNamed`. -/

/-- Hexadecimal character (`[a-fA-F0-9]`). -/
def isHexC (c : Char) : Bool :=
  c.isDigit || (decide (97 ≤ c.toNat) && decide (c.toNat ≤ 102)) ||
  (decide (65 ≤ c.toNat) && decide (c.toNat ≤ 70))

/-- `looksLikeCommitSHA`: the trimmed ref matches `^[a-fA-F0-9]{7,40}$`. -/
def looksLikeCommitSHA (ref : String) : Bool :=
  let t := trimSpace ref
  decide (7 ≤ t.data.length) && decide (t.data.length ≤ 40) && t.data.all isHexC

/-- Decimal digits of a natural number (explicit fuel keeps the
definition structural). -/
def natDigits : Nat → Nat → List Char
  | 0, _ => []
  | fuel + 1, n =>
    if n < 10 then [Char.ofNat (48 + n)]
    else natDigits fuel (n / 10) ++ [Char.ofNat (48 + n % 10)]

/-- Decimal rendering of a natural number (`fmt.Sprintf("%d", ·)`). -/
def natToStr (n : Nat) : String :=
  if n = 0 then "0" else String.mk (natDigits (n + 1) n)

/-- Error kinds of one clone-or-open workflow. -/
inductive GitErr where
  | cloneFailed
  | checkoutFailed
  | fetchFailed
  | originMismatch
  | headFailed
deriving DecidableEq

/-- The argument list of the `git clone` invocation built by
`cloneOrOpenOneNamed` for an absent working directory. -/
def cloneArgs (url workdir ref : String) (depth : Nat) : List String :=
  ["clone"] ++
  (if 0 < depth then ["--depth=" ++ natToStr depth] else []) ++
  (if !looksLikeCommitSHA ref then ["--branch", ref, "--single-branch"] else []) ++
  [url, workdir]

/-- The handler's depth defaulting (`if depth <= 0 { depth = 1 }`). -/
def effDepth (depth : Int) : Nat :=
  if depth ≤ 0 then 1 else depth.toNat

/-- Absent-workdir branch of `cloneOrOpenOneNamed`: clone (followed, for
a commit-hash ref, by an explicit checkout), then resolve `HEAD`.
Returns the trace of git invocations and the error outcome. -/
def cloneFresh (ok : List String → Bool) (url workdir ref : String) (depth : Nat) :
    List (List String) × Option GitErr :=
  let ca := cloneArgs url workdir ref depth
  if !(ok ca) then ([ca], some .cloneFailed)
  else if looksLikeCommitSHA ref then
    if !(ok ["checkout", ref]) then ([ca, ["checkout", ref]], some .checkoutFailed)
    else if !(ok ["rev-parse", "HEAD"]) then
      ([ca, ["checkout", ref], ["rev-parse", "HEAD"]], some .headFailed)
    else ([ca, ["checkout", ref], ["rev-parse", "HEAD"]], none)
  else if !(ok ["rev-parse", "HEAD"]) then ([ca, ["rev-parse", "HEAD"]], some .headFailed)
  else ([ca, ["rev-parse", "HEAD"]], none)

/-- URL normalization of `sameRepoURL`: trim space, strip one trailing
`/`, strip one trailing `.git`. -/
def normalizeRepoURL (s : String) : String :=
  trimSuffix (trimSuffix (trimSpace s) "/") ".git"

/-- `sameRepoURL` of the source. -/
def sameRepoURL (a b : String) : Bool := normalizeRepoURL a == normalizeRepoURL b

/-- Present-workdir branch of `cloneOrOpenOneNamed`, starting right
after `gitOriginURL`: `origin` is that call's result (`none` models a
failed read; the source only checks when the read succeeded with a
non-empty URL).  Returns the trace of git commands run in the working
directory after the origin read, and the error outcome. -/
def openExisting (ok : List String → Bool) (origin : Option String)
    (url ref : String) (pull : Bool) : List (List String) × Option GitErr :=
  if (match origin with
      | some o => o != "" && !(sameRepoURL o url)
      | none => false) then
    ([], some .originMismatch)
  else
    let fetchOps : List (List String) := if pull then [["fetch", "--all", "--prune"]] else []
    if pull && !(ok ["fetch", "--all", "--prune"]) then (fetchOps, some .fetchFailed)
    else
      let coOps : List (List String) :=
        if looksLikeCommitSHA ref then [["checkout", ref]]
        else if ok ["checkout", ref] then
          (if pull then [["checkout", ref], ["reset", "--hard", "origin/" ++ ref]]
           else [["checkout", ref]])
        else
          (if pull then
            [["checkout", ref], ["checkout", "-B", ref, "origin/" ++ ref],
             ["reset", "--hard", "origin/" ++ ref]]
           else [["checkout", ref], ["checkout", "-B", ref, "origin/" ++ ref]])
      if looksLikeCommitSHA ref && !(ok ["checkout", ref]) then
        (fetchOps ++ coOps, some .checkoutFailed)
      else if !(ok ["rev-parse", "HEAD"]) then
        (fetchOps ++ coOps ++ [["rev-parse", "HEAD"]], some .headFailed)
      else (fetchOps ++ coOps ++ [["rev-parse", "HEAD"]], none)

/-! ## Repository scanner (`repos_scan_cudu_plan_inputs.go`)

The filesystem walk is abstracted as the ordered list of files below a
working directory (path segments plus the `os.ReadFile` outcome); the
YAML codec (`sigs.k8s.io/yaml`) is abstracted by a parse oracle
`yparse : String → Option mapping` (`none` models an unmarshal error,
and a nil map is folded into `none` as the source rejects it). -/

/-- One file visited by `filepath.WalkDir`. -/
structure ScanFile where
  segs : List String
  read : Except String String

/-- `filepath.Ext` of a base name. -/
def extOf (s : String) : String :=
  let p := s.data.reverse.span (fun c => c != '.')
  match p.2 with
  | [] => ""
  | _ => String.mk ('.' :: p.1.reverse)

/-- The extension gate of the walk callback
(`ext != ".yaml" && ext != ".yml"` after lowering). -/
def yamlExt (base : String) : Bool :=
  lowerStr (extOf base) == ".yaml" || lowerStr (extOf base) == ".yml"

/-- Whether the walk reaches this file at all: files under a `.git`
directory are skipped wholesale (`fs.SkipDir`). -/
def walkReaches (f : ScanFile) : Bool := !(f.segs.dropLast.contains ".git")

/-- Whether the walk callback passes the file to the read/parse stage. -/
def fileEligible (f : ScanFile) : Bool :=
  walkReaches f && yamlExt (f.segs.getLastD "")

/-- The repo-relative slash path of a file. -/
def relPathOf (f : ScanFile) : String := String.intercalate "/" f.segs

/-- `parseYAMLToUnstructured`: parse, then require non-empty `kind` and
`apiVersion` (`none` on either failure; the caller ignores the reason). -/
def parseYAMLToUnstructuredM (yparse : String → Option (List (String × Y)))
    (b : String) : Option (List (String × Y)) :=
  match yparse b with
  | none => none
  | some m => if getKindOf m == "" || getAPIVersionOf m == "" then none else some m

/-- A matched document of the scan (`FoundObject`, without the optional
raw payload). -/
structure FoundObj where
  file : String
  kind : String
  apiVersion : String
  name : String
  nspace : String
  ifaces : List NetworkInterface
deriving DecidableEq

/-- Per-repository scan outcome. -/
structure ScanRepoOut where
  found : List FoundObj
  errors : List String
deriving DecidableEq

/-- Process the split documents of one file (the inner `for _, doc :=
range docs` loop): parse failures and unwanted kinds are skipped
silently. -/
def processDocs (yparse : String → Option (List (String × Y)))
    (wantKinds : List String) (includeTopology : Bool) (rel : String)
    (docs : List String) : List FoundObj :=
  docs.filterMap (fun d =>
    let d' := trimSpace d
    if d' == "" then none
    else
      match parseYAMLToUnstructuredM yparse d' with
      | none => none
      | some m =>
        let kind := trimSpace (getKindOf m)
        if kind == "" then none
        else if !(wantKinds.contains kind) then none
        else some ⟨rel, kind, getAPIVersionOf m, getNameOf m, getNamespaceOf m,
          if includeTopology then extractNetworkInterfaces m else []⟩)

/-- The walk over one repository's files with the running yaml-file
counter (`count`); exceeding `maxFiles` halts the walk (`fs.SkipAll`)
without failing the repository.  Read failures are recorded as warnings
and processing continues with the next file. -/
def scanFilesGo (yparse : String → Option (List (String × Y)))
    (wantKinds : List String) (includeTopology : Bool) :
    List ScanFile → Nat → Nat → ScanRepoOut → ScanRepoOut
  | [], _, _, acc => acc
  | f :: rest, count, maxFiles, acc =>
    if !(fileEligible f) then scanFilesGo yparse wantKinds includeTopology rest count maxFiles acc
    else if maxFiles < count + 1 then acc
    else
      match f.read with
      | .error e =>
        scanFilesGo yparse wantKinds includeTopology rest (count + 1) maxFiles
          { acc with errors := acc.errors ++ ["read error: " ++ relPathOf f ++ ": " ++ e] }
      | .ok content =>
        scanFilesGo yparse wantKinds includeTopology rest (count + 1) maxFiles
          { acc with found := acc.found ++
              processDocs yparse wantKinds includeTopology (relPathOf f) (splitYAMLDocuments content) }

/-- Scan one repository working directory. -/
def scanRepoGo (yparse : String → Option (List (String × Y)))
    (wantKinds : List String) (includeTopology : Bool) (maxFiles : Nat)
    (files : List ScanFile) : ScanRepoOut :=
  scanFilesGo yparse wantKinds includeTopology files 0 maxFiles ⟨[], []⟩

/-- Scan a batch of repositories: each repository is scanned
independently and contributes exactly one result. -/
def scanManyGo (yparse : String → Option (List (String × Y)))
    (wantKinds : List String) (includeTopology : Bool) (maxFiles : Nat)
    (repos : List (List ScanFile)) : List ScanRepoOut :=
  repos.map (scanRepoGo yparse wantKinds includeTopology maxFiles)

/-! ## Claim theorems -/

/-- **C10**: the multi-document splitter returns exactly one more part
than the number of lines whose whitespace-trimmed content equals
`"---"`; every line trimming to `"---"` separates regardless of context,
and the non-separator lines appear unchanged and in order in the
returned parts (the parts are precisely the groups of non-separator
lines between separators, rejoined with newlines). -/
theorem C10_split_documents (src : String) :
    (splitYAMLDocuments src).length = (splitNL src).countP isSepLine + 1 ∧
    (docGroups (splitNL src)).flatten =
      (splitNL src).filter (fun l => !(isSepLine l)) ∧
    splitYAMLDocuments src =
      (docGroups (splitNL src)).map (fun g => joinNL g) := by
  refine ⟨?_, docGroups_join _, rfl⟩
  simp [splitYAMLDocuments, docGroups_length]

/-- **C2**: for every patch target and input map, a dry-run invocation
leaves the on-disk document untouched regardless of the computed
`changed` value, and reports exactly the `changed` flag that a
persisting invocation on the same document would report. -/
theorem C2_dry_run_purity (jparse : String → Option (List (String × Y)))
    (jmarshal : List (String × Y) → String) (ips : List (String × IPInfo))
    (tKind : String) (disk : List (String × Y)) :
    (runPatchTarget jparse jmarshal ips true tKind disk).1 = disk ∧
    (runPatchTarget jparse jmarshal ips true tKind disk).2 =
      (runPatchTarget jparse jmarshal ips false tKind disk).2 := by
  simp [runPatchTarget]

/-- **C6 counterexample**: for a commit-hash ref with the default depth,
the clone command still carries `--depth=1`; the clone performed for a
commit hash is depth-bounded, not full. -/
theorem C6_counterexample :
    looksLikeCommitSHA "a1b2c3d4e5" = true ∧
    cloneArgs "https://h/r.git" "/w" "a1b2c3d4e5" (effDepth 0) =
      ["clone", "--depth=1", "https://h/r.git", "/w"] ∧
    "--depth=1" ∈ cloneArgs "https://h/r.git" "/w" "a1b2c3d4e5" (effDepth 0) := by
  decide

theorem effDepth_pos (d : Int) : 0 < effDepth d := by
  unfold effDepth
  split
  · decide
  · next h => omega

/-- **C6 amended**: for an absent working directory, a commit-hash ref
yields a depth-bounded clone without branch selection followed by an
explicit checkout of that commit, while any other ref yields a shallow,
depth-bounded, single-branch clone of that branch with no explicit
checkout (depth defaults to 1 and the `--depth` flag is always
present).  Both cases pin the complete trace of git invocations: after
a hash-ref clone succeeds the next command is the checkout and the only
further command is the `HEAD` read, and after a branch-ref clone the
only further command is the `HEAD` read — no command of the whole
branch-ref trace is a checkout. -/
theorem C6_clone_dispatch (ok : List String → Bool) (url wd ref : String) (d : Int) :
    (looksLikeCommitSHA ref = true →
      cloneArgs url wd ref (effDepth d) =
        ["clone", "--depth=" ++ natToStr (effDepth d), url, wd] ∧
      (ok (cloneArgs url wd ref (effDepth d)) = true →
        (cloneFresh ok url wd ref (effDepth d)).1.take 2 =
          [cloneArgs url wd ref (effDepth d), ["checkout", ref]]) ∧
      (cloneFresh ok url wd ref (effDepth d)).1 =
        (if ok (cloneArgs url wd ref (effDepth d)) then
          (if ok ["checkout", ref] then
            [cloneArgs url wd ref (effDepth d), ["checkout", ref],
             ["rev-parse", "HEAD"]]
           else [cloneArgs url wd ref (effDepth d), ["checkout", ref]])
         else [cloneArgs url wd ref (effDepth d)])) ∧
    (looksLikeCommitSHA ref = false →
      cloneArgs url wd ref (effDepth d) =
        ["clone", "--depth=" ++ natToStr (effDepth d), "--branch", ref,
         "--single-branch", url, wd] ∧
      (cloneFresh ok url wd ref (effDepth d)).1 =
        (if ok (cloneArgs url wd ref (effDepth d)) then
          [cloneArgs url wd ref (effDepth d), ["rev-parse", "HEAD"]]
         else [cloneArgs url wd ref (effDepth d)]) ∧
      ∀ c ∈ (cloneFresh ok url wd ref (effDepth d)).1,
        c.head? ≠ some "checkout") := by
  have hd := effDepth_pos d
  constructor
  · intro hsha
    refine ⟨by simp [cloneArgs, hsha, hd], ?_, ?_⟩
    · intro hok
      by_cases h2 : ok ["checkout", ref] <;>
        by_cases h3 : ok ["rev-parse", "HEAD"] <;>
          simp [cloneFresh, hok, hsha, h2, h3]
    · by_cases hok : ok (cloneArgs url wd ref (effDepth d)) <;>
        by_cases h2 : ok ["checkout", ref] <;>
          by_cases h3 : ok ["rev-parse", "HEAD"] <;>
            simp [cloneFresh, hok, hsha, h2, h3]
  · intro hsha
    have e : cloneArgs url wd ref (effDepth d) =
        ["clone", "--depth=" ++ natToStr (effDepth d), "--branch", ref,
         "--single-branch", url, wd] := by
      simp [cloneArgs, hsha, hd]
    have ht : (cloneFresh ok url wd ref (effDepth d)).1 =
        (if ok (cloneArgs url wd ref (effDepth d)) then
          [cloneArgs url wd ref (effDepth d), ["rev-parse", "HEAD"]]
         else [cloneArgs url wd ref (effDepth d)]) := by
      by_cases hok : ok (cloneArgs url wd ref (effDepth d)) <;>
        by_cases h3 : ok ["rev-parse", "HEAD"] <;>
          simp [cloneFresh, hok, hsha, h3]
    refine ⟨e, ht, ?_⟩
    rw [ht]
    by_cases hok : ok (cloneArgs url wd ref (effDepth d))
    · rw [if_pos hok]
      intro c hc
      simp only [List.mem_cons, List.not_mem_nil, or_false] at hc
      rcases hc with rfl | rfl
      · rw [e]; simp
      · simp
    · rw [if_neg hok]
      intro c hc
      simp only [List.mem_cons, List.not_mem_nil, or_false] at hc
      rcases hc with rfl
      rw [e]; simp

/-- **C6 witness**: concrete instantiation of the amended dispatch
theorem at a hash ref and a branch ref, including the full traces. -/
theorem C6_clone_dispatch_witness :
    (cloneArgs "u" "w" "a1b2c3d4e5" (effDepth 0) =
      ["clone", "--depth=1", "u", "w"] ∧
     (cloneFresh (fun _ => true) "u" "w" "a1b2c3d4e5" (effDepth 0)).1.take 2 =
      [cloneArgs "u" "w" "a1b2c3d4e5" (effDepth 0), ["checkout", "a1b2c3d4e5"]]) ∧
    cloneArgs "u" "w" "main" (effDepth 0) =
      ["clone", "--depth=1", "--branch", "main", "--single-branch", "u", "w"] ∧
    (cloneFresh (fun _ => true) "u" "w" "main" (effDepth 0)).1 =
      [cloneArgs "u" "w" "main" (effDepth 0), ["rev-parse", "HEAD"]] ∧
    ∀ c ∈ (cloneFresh (fun _ => true) "u" "w" "main" (effDepth 0)).1,
      c.head? ≠ some "checkout" := by
  refine ⟨⟨?_, ?_⟩, ?_, ?_, ?_⟩
  · exact ((C6_clone_dispatch (fun _ => true) "u" "w" "a1b2c3d4e5" 0).1 (by decide)).1
  · exact ((C6_clone_dispatch (fun _ => true) "u" "w" "a1b2c3d4e5" 0).1
      (by decide)).2.1 (by decide)
  · exact ((C6_clone_dispatch (fun _ => true) "u" "w" "main" 0).2 (by decide)).1
  · have h := ((C6_clone_dispatch (fun _ => true) "u" "w" "main" 0).2 (by decide)).2.1
    simpa using h
  · exact ((C6_clone_dispatch (fun _ => true) "u" "w" "main" 0).2 (by decide)).2.2

/-- **C7**: opening a cached working directory whose origin remote URL
(successfully read and non-empty) differs from the requested URL after
normalization is rejected: the result is exactly the origin-mismatch
error and no further git operation is performed in that working
directory; when the normalized URLs agree the target is never rejected
with the mismatch error, whatever the later git commands do. -/
theorem C7_identity_guard (ok : List String → Bool) (o url ref : String)
    (pull : Bool) (hne : o ≠ "") :
    (sameRepoURL o url = false →
      openExisting ok (some o) url ref pull = ([], some .originMismatch)) ∧
    (sameRepoURL o url = true →
      (openExisting ok (some o) url ref pull).2 ≠ some .originMismatch) := by
  have hne' : (o != "") = true := by simpa using hne
  constructor
  · intro hmm
    simp [openExisting, hne', hmm]
  · intro hsame
    simp only [openExisting, hne', hsame]
    simp only [Bool.not_eq_eq_eq_not, Bool.not_true, Bool.and_false]
    split
    · simp_all
    · split
      · simp
      · split
        · simp
        · split <;> simp

/-- **C7 witness**: concrete mismatching and matching URL pairs
(`https://host/a.git` cached vs `https://host/b.git` requested, and a
pair equal after stripping the trailing slash and `.git`). -/
theorem C7_identity_guard_witness :
    openExisting (fun _ => true) (some "https://host/a.git") "https://host/b.git"
      "main" true = ([], some .originMismatch) ∧
    (openExisting (fun _ => true) (some "https://host/a.git") "https://host/a/"
      "main" true).2 ≠ some GitErr.originMismatch := by
  constructor
  · exact (C7_identity_guard (fun _ => true) "https://host/a.git" "https://host/b.git"
      "main" true (by decide)).1 (by decide)
  · exact (C7_identity_guard (fun _ => true) "https://host/a.git" "https://host/a/"
      "main" true (by decide)).2 (by decide)

/-- **C3**: extracting bindings from the document
`(name: n2, address: 10.0.0.5/24, gateway: 10.0.0.1)` yields exactly the
binding `n2` with CIDR set `10.0.0.5/24` and host set containing both
`10.0.0.5` and `10.0.0.1` — the CIDR match on the address does not
suppress the IPv4 match on the same substring. -/
theorem C3_example_extraction :
    extractNetworkInterfaces
      [("name", .s "n2"), ("address", .s "10.0.0.5/24"), ("gateway", .s "10.0.0.1")] =
      [⟨"n2", ["10.0.0.5/24"], ["10.0.0.1", "10.0.0.5"]⟩] ∧
    "10.0.0.5" ∈ ((extractNetworkInterfaces
      [("name", .s "n2"), ("address", .s "10.0.0.5/24"),
       ("gateway", .s "10.0.0.1")]).headD ⟨"", [], []⟩).ips ∧
    "10.0.0.1" ∈ ((extractNetworkInterfaces
      [("name", .s "n2"), ("address", .s "10.0.0.5/24"),
       ("gateway", .s "10.0.0.1")]).headD ⟨"", [], []⟩).ips := by
  refine ⟨by decide, ?_, ?_⟩ <;> decide

/-- **C9 counterexample**: the fallback string-field patch performs no
literal substring replacement: a string leaf whose content is exactly an
interface key of the map (here `n2` under the key `note`) is left
untouched and `changed=false` is reported, although the claim demands
every occurrence of a map key in a leaf to be replaced. -/
theorem C9_counterexample :
    patchStringFieldsInMap [("n2", ⟨"10.10.1.10/24", "10.10.1.1"⟩)] [("note", .s "n2")] =
      ([("note", .s "n2")], false) ∧
    containsSub "n2" "n2" = true := by
  decide

/-- **C8 counterexample**: the path segment `n2x` is prefixed by the
domain token `n2`, yet it seeds no binding: the source requires the
segment to equal a token or to start with the token followed by an
underscore, so a document whose only address sits below `n2x` extracts
nothing. -/
theorem C8_counterexample :
    hasPfx "n2x" "n2" = true ∧
    extractNetworkInterfaces [("n2x", .m [("x", .s "10.0.0.5")])] = [] ∧
    tokenSeg "n2x" = false := by
  decide

theorem strFieldRewrite_nochange (ips : List (String × IPInfo)) (nv : Option Y)
    (k raw : String) (h : (strFieldRewrite ips nv k raw).2 = false) :
    (strFieldRewrite ips nv k raw).1 = raw := by
  revert h
  unfold strFieldRewrite
  repeat' split
  all_goals intro h
  all_goals first
    | rfl
    | simp at h

theorem pstr_nochange :
    ∀ v : Y, ∀ ips, (pstrY v ips).2 = false → (pstrY v ips).1 = v := by
  have h := ysize.induct
    (motive_1 := fun v => ∀ ips, (pstrY v ips).2 = false → (pstrY v ips).1 = v)
    (motive_2 := fun xs => ∀ ips, (pstrElems xs ips).2 = false → (pstrElems xs ips).1 = xs)
    (motive_3 := fun es => ∀ nv ips,
      (pstrEntries es nv ips).2 = false → (pstrEntries es nv ips).1 = es)
  apply h
  case case1 => intro v ips _; rfl
  case case2 => intro v ips _; rfl
  case case3 => intro v ips _; rfl
  case case4 => intro ips _; rfl
  case case5 =>
    intro es ih ips hf
    simp only [pstrY] at hf ⊢
    rw [ih _ _ hf]
  case case6 =>
    intro xs ih ips hf
    simp only [pstrY] at hf ⊢
    rw [ih _ hf]
  case case7 => intro nv ips _; rfl
  case case8 =>
    intro k v r ihv ihr nv ips hf
    cases v with
    | s raw =>
      simp only [pstrEntries, Bool.or_eq_false_iff] at hf ⊢
      rw [strFieldRewrite_nochange _ _ _ _ hf.1, ihr _ _ hf.2]
    | i n =>
      simp only [pstrEntries, pstrY, Bool.or_eq_false_iff] at hf ⊢
      rw [ihr _ _ hf.2]
    | b bv =>
      simp only [pstrEntries, pstrY, Bool.or_eq_false_iff] at hf ⊢
      rw [ihr _ _ hf.2]
    | null =>
      simp only [pstrEntries, pstrY, Bool.or_eq_false_iff] at hf ⊢
      rw [ihr _ _ hf.2]
    | m es =>
      simp only [pstrEntries, Bool.or_eq_false_iff] at hf ⊢
      rw [ihv _ hf.1, ihr _ _ hf.2]
    | a xs =>
      simp only [pstrEntries, Bool.or_eq_false_iff] at hf ⊢
      rw [ihv _ hf.1, ihr _ _ hf.2]
  case case9 => intro ips _; rfl
  case case10 =>
    intro v r ihv ihr ips hf
    simp only [pstrElems, Bool.or_eq_false_iff] at hf ⊢
    rw [ihv _ hf.1, ihr _ hf.2]

theorem patchStringFieldsInMap_nochange (ips : List (String × IPInfo))
    (m : List (String × Y)) (hf : (patchStringFieldsInMap ips m).2 = false) :
    (patchStringFieldsInMap ips m).1 = m := by
  have h := pstr_nochange (.m m) ips
  simp only [pstrY] at h
  have h2 := h (by simpa [patchStringFieldsInMap] using hf)
  simpa [patchStringFieldsInMap] using h2

/-- **C9 amended**: the fallback string-field patch performs no
substring replacement.  It overwrites only whole values: an `address`
leaf whose trimmed content matches the CIDR pattern and whose parent
mapping's `name` resolves in the interface map is replaced by the
desired address exactly when the trimmed content differs from it; and
whenever the patch reports `changed=false` the document is returned
unmodified. -/
theorem C9_string_patch (ips : List (String × IPInfo)) (m : List (String × Y))
    (nm a : String) (ip : IPInfo)
    (hres : lookupIP ips (trimSpace nm) = some ip)
    (hcidr : cidrMatch (trimSpace a) = true)
    (hne : ip.address ≠ "") (hdiff : trimSpace a ≠ ip.address) :
    ((patchStringFieldsInMap ips m).2 = false → (patchStringFieldsInMap ips m).1 = m) ∧
    patchStringFieldsInMap ips [("name", .s nm), ("address", .s a)] =
      ([("name", .s nm), ("address", .s ip.address)], true) := by
  refine ⟨patchStringFieldsInMap_nochange ips m, ?_⟩
  have hne' : (ip.address != "") = true := by simpa using hne
  have hdiff' : (trimSpace a != ip.address) = true := by simpa using hdiff
  simp [patchStringFieldsInMap, pstrEntries, lookupE, strFieldRewrite, hres, hcidr,
    hne', hdiff']

/-- **C9 witness**: the amended behavior at concrete inputs: a document
whose only CIDR-looking `address` has a resolving sibling `name` is
rewritten to the desired value, and a no-change run returns the document
unmodified. -/
theorem C9_string_patch_witness :
    ((patchStringFieldsInMap [("n2", ⟨"10.10.1.10/24", "10.10.1.1"⟩)]
        [("note", .s "n2")]).2 = false →
      (patchStringFieldsInMap [("n2", ⟨"10.10.1.10/24", "10.10.1.1"⟩)]
        [("note", .s "n2")]).1 = [("note", .s "n2")]) ∧
    patchStringFieldsInMap [("n2", ⟨"10.10.1.10/24", "10.10.1.1"⟩)]
      [("name", .s "n2"), ("address", .s "10.0.0.5/24")] =
      ([("name", .s "n2"), ("address", .s "10.10.1.10/24")], true) :=
  C9_string_patch [("n2", ⟨"10.10.1.10/24", "10.10.1.1"⟩)] [("note", .s "n2")]
    "n2" "10.0.0.5/24" ⟨"10.10.1.10/24", "10.10.1.1"⟩
    (by decide) (by decide) (by decide) (by decide)

/-- **C8 amended**: a path segment that is a literal domain token
(`n2`,`n3`,`n4`,`n6`) or starts with a token followed by an underscore
seeds a binding named that literal segment; each visited leaf value
under it is scanned individually (per visit, the current leaf value
only) and all matches are collected into that binding, which is dropped
when empty.  Segments merely prefixed by a token (without the
underscore) seed nothing (see the counterexample). -/
theorem C8_token_seeding (seg k1 k2 v w : String)
    (hseg : tokenSeg seg = true)
    (hk1 : nameKeyB k1 = false) (hk2 : nameKeyB k2 = false) :
    extractNetworkInterfaces [(seg, .m [(k1, .s v), (k2, .s w)])] =
      (if (dedupAppendAll (dedupAppendAll [] (findAllCIDR v)) (findAllCIDR w)).isEmpty &&
          (dedupAppendAll (dedupAppendAll [] (findAllIPv4 v)) (findAllIPv4 w)).isEmpty
       then []
       else [⟨seg,
          insSortBy strLeB (dedupAppendAll (dedupAppendAll [] (findAllCIDR v)) (findAllCIDR w)),
          insSortBy strLeB (dedupAppendAll (dedupAppendAll [] (findAllIPv4 v)) (findAllIPv4 w))⟩]) := by
  have step : exFoldY (.m [(seg, .m [(k1, .s v), (k2, .s w)])]) [] [] =
      [⟨seg, dedupAppendAll (dedupAppendAll [] (findAllCIDR v)) (findAllCIDR w),
             dedupAppendAll (dedupAppendAll [] (findAllIPv4 v)) (findAllIPv4 w)⟩] := by
    simp [exFoldY, exFoldEntries, extractVisit, inferIfName, tokenSeed, accEnsure,
      accScanString, hseg, hk1, hk2]
  unfold extractNetworkInterfaces
  rw [step]
  unfold finalizeIfaces
  by_cases hC :
      (dedupAppendAll (dedupAppendAll [] (findAllCIDR v)) (findAllCIDR w)) = [] <;>
    by_cases hI :
        (dedupAppendAll (dedupAppendAll [] (findAllIPv4 v)) (findAllIPv4 w)) = [] <;>
      simp [hC, hI, insSortBy, ordInsert]

/-- **C8 witness**: the amended seeding behavior for the concrete
segment `n2_a` over two sibling leaves. -/
theorem C8_token_seeding_witness :
    extractNetworkInterfaces [("n2_a", .m [("x", .s "10.0.0.5"), ("y", .s "10.0.0.9/24")])] =
      [⟨"n2_a", ["10.0.0.9/24"], ["10.0.0.5", "10.0.0.9"]⟩] := by
  have h := C8_token_seeding "n2_a" "x" "y" "10.0.0.5" "10.0.0.9/24"
    (by decide) (by decide) (by decide)
  rw [h]
  decide

/-- A concrete parse oracle: `"good"` parses to a wanted document,
anything else fails to parse. -/
def yparseC5 : String → Option (List (String × Y)) :=
  fun s => if s == "good" then some [("kind", .s "NFDeployment"), ("apiVersion", .s "v1")] else none

/-- **C5 counterexample**: a file whose single document fails to parse
contributes no warning at all — the repository's error list stays empty
(the source silently skips parse failures), while the scan continues
with the other files.  The claim's statement that parse failures are
collected as warnings is therefore false on the code. -/
theorem C5_counterexample :
    yparseC5 "bad" = none ∧
    scanRepoGo yparseC5 ["NFDeployment"] true 5000
      [⟨["bad.yaml"], .ok "bad"⟩, ⟨["good.yaml"], .ok "good"⟩] =
      ⟨[⟨"good.yaml", "NFDeployment", "v1", "", "", []⟩], []⟩ := by
  decide

/-- Warnings a file list contributes (claim-side description): one read
warning per eligible file whose read failed. -/
def scanWarnSpec (fs : List ScanFile) : List String :=
  (fs.filter fileEligible).filterMap (fun f =>
    match f.read with
    | .error e => some ("read error: " ++ relPathOf f ++ ": " ++ e)
    | .ok _ => none)

/-- Matches a file list contributes (claim-side description). -/
def scanFoundSpec (yparse : String → Option (List (String × Y)))
    (wantKinds : List String) (it : Bool) (fs : List ScanFile) : List FoundObj :=
  (fs.filter fileEligible).flatMap (fun f =>
    match f.read with
    | .error _ => []
    | .ok content => processDocs yparse wantKinds it (relPathOf f) (splitYAMLDocuments content))

theorem scanFilesGo_char (yparse : String → Option (List (String × Y)))
    (wk : List String) (it : Bool) :
    ∀ (fs : List ScanFile) (count mf : Nat) (acc : ScanRepoOut),
      count + fs.countP fileEligible ≤ mf →
      scanFilesGo yparse wk it fs count mf acc =
        ⟨acc.found ++ scanFoundSpec yparse wk it fs, acc.errors ++ scanWarnSpec fs⟩ := by
  intro fs
  induction fs with
  | nil => intro count mf acc hcap; simp [scanFilesGo, scanFoundSpec, scanWarnSpec]
  | cons f rest ih =>
    intro count mf acc hcap
    by_cases hel : fileEligible f
    · have hcap' : count + 1 + rest.countP fileEligible ≤ mf := by
        simp [List.countP_cons, hel] at hcap
        omega
      have hnc : ¬ (mf < count + 1) := by omega
      cases hread : f.read with
      | error e =>
        simp only [scanFilesGo, hel, hread, if_pos, Bool.not_true]
        rw [if_neg (by simp), if_neg hnc, ih (count + 1) mf _ hcap']
        simp [scanFoundSpec, scanWarnSpec, hel, hread]
      | ok content =>
        simp only [scanFilesGo, hel, hread]
        rw [if_neg (by simp), if_neg hnc, ih (count + 1) mf _ hcap']
        simp [scanFoundSpec, scanWarnSpec, hel, hread]
    · have hel' : fileEligible f = false := by simpa using hel
      simp only [scanFilesGo, hel']
      rw [if_pos (by simp)]
      rw [ih count mf acc (by simpa [List.countP_cons, hel'] using hcap)]
      simp [scanFoundSpec, scanWarnSpec, hel']

/-- **C5 amended**: a read failure on an individual file is collected as
a warning against that repository, and aborts neither the scan of the
repository's other files (their matches and warnings are exactly those
of the scan without the failing file) nor the scan of other repositories
(each repository in the batch is scanned independently); parse failures
on individual documents are skipped silently — they contribute neither a
match nor a warning — and likewise abort nothing. -/
theorem C5_partial_failure (yparse : String → Option (List (String × Y)))
    (wk : List String) (it : Bool) (mf : Nat) (fs1 fs2 : List ScanFile)
    (f : ScanFile) (e : String)
    (hel : fileEligible f = true) (hread : f.read = .error e)
    (hcap : (fs1 ++ f :: fs2).countP fileEligible ≤ mf) :
    scanRepoGo yparse wk it mf (fs1 ++ f :: fs2) =
      ⟨(scanRepoGo yparse wk it mf (fs1 ++ fs2)).found,
       scanWarnSpec fs1 ++ ("read error: " ++ relPathOf f ++ ": " ++ e) :: scanWarnSpec fs2⟩ ∧
    (∀ (repos1 repos2 : List (List ScanFile)) (r : List ScanFile),
      scanManyGo yparse wk it mf (repos1 ++ r :: repos2) =
        scanManyGo yparse wk it mf repos1 ++ scanRepoGo yparse wk it mf r ::
          scanManyGo yparse wk it mf repos2) ∧
    (∀ (rel : String) (docs1 docs2 : List String) (d : String),
      parseYAMLToUnstructuredM yparse (trimSpace d) = none →
      processDocs yparse wk it rel (docs1 ++ d :: docs2) =
        processDocs yparse wk it rel (docs1 ++ docs2)) := by
  refine ⟨?_, ?_, ?_⟩
  · have hcap2 : (fs1 ++ fs2).countP fileEligible ≤ mf := by
      simp only [List.countP_append, List.countP_cons, hel] at hcap ⊢
      omega
    rw [scanRepoGo, scanFilesGo_char yparse wk it _ 0 mf _ (by simpa using hcap),
        scanRepoGo, scanFilesGo_char yparse wk it _ 0 mf _ (by simpa using hcap2)]
    simp [scanFoundSpec, scanWarnSpec, hel, hread]
  · intro repos1 repos2 r
    simp [scanManyGo]
  · intro rel docs1 docs2 d hpd
    simp only [processDocs, List.filterMap_append, List.filterMap_cons]
    by_cases hempty : trimSpace d == ""
    · simp [hempty]
    · simp only [hempty, hpd]
      simp [show (trimSpace d == "") = false by simpa using hempty, hpd]

/-- **C5 witness**: the amended partial-failure behavior at a concrete
batch: the unreadable file yields exactly one warning, the other file's
match survives, and a parse-failing document contributes nothing. -/
theorem C5_partial_failure_witness :
    scanRepoGo yparseC5 ["NFDeployment"] true 5000
      [⟨["sub", "x.yaml"], .error "denied"⟩, ⟨["good.yaml"], .ok "good"⟩] =
      ⟨[⟨"good.yaml", "NFDeployment", "v1", "", "", []⟩],
       ["read error: sub/x.yaml: denied"]⟩ := by
  have h := (C5_partial_failure yparseC5 ["NFDeployment"] true 5000 []
    [⟨["good.yaml"], .ok "good"⟩] ⟨["sub", "x.yaml"], .error "denied"⟩ "denied"
    (by decide) rfl (by decide)).1
  simp only [List.nil_append] at h
  rw [h]
  decide

theorem ordInsert_perm (le : α → α → Bool) (x : α) (l : List α) :
    (ordInsert le x l).Perm (x :: l) := by
  induction l with
  | nil => simp [ordInsert]
  | cons y ys ih =>
    simp only [ordInsert]
    split
    · exact List.Perm.refl _
    · exact ((ih.cons y).trans (List.Perm.swap x y ys))

theorem insSortBy_perm (le : α → α → Bool) (l : List α) :
    (insSortBy le l).Perm l := by
  induction l with
  | nil => simp [insSortBy]
  | cons x xs ih => exact (ordInsert_perm le x (insSortBy le xs)).trans (ih.cons x)

theorem dedupAppend_nodup (xs : List String) (x : String) (h : xs.Nodup) :
    (dedupAppend xs x).Nodup := by
  unfold dedupAppend
  split
  · exact h
  · next hc =>
    have hx : x ∉ xs := by simpa using hc
    simp [List.nodup_append, h, hx]

theorem dedupAppendAll_nodup (news xs : List String) (h : xs.Nodup) :
    (dedupAppendAll xs news).Nodup := by
  induction news generalizing xs with
  | nil => simpa [dedupAppendAll]
  | cons n ns ih =>
    simp only [dedupAppendAll, List.foldl_cons] at *
    exact ih _ (dedupAppend_nodup _ _ h)

/-- Invariant of the extraction accumulator: binding names are pairwise
distinct and every binding's lists are deduplicated. -/
def accInv (acc : List NetworkInterface) : Prop :=
  (acc.map (fun b => b.name)).Nodup ∧ ∀ b ∈ acc, b.cidrs.Nodup ∧ b.ips.Nodup

theorem accEnsure_inv (acc : List NetworkInterface) (nm : String) (h : accInv acc) :
    accInv (accEnsure acc nm) := by
  unfold accEnsure
  split
  · exact h
  · next hc =>
    obtain ⟨h1, h2⟩ := h
    constructor
    · simp only [List.map_append, List.map_cons, List.map_nil]
      rw [List.nodup_append]
      refine ⟨h1, by simp, ?_⟩
      intro a ha hb
      simp only [List.mem_cons, List.not_mem_nil, or_false] at hb
      subst hb
      apply hc
      simp only [List.any_eq_true]
      obtain ⟨b', hb', hname⟩ := List.mem_map.mp ha
      exact ⟨b', hb', by simp [hname]⟩
    · intro b hb
      rcases List.mem_append.mp hb with h' | h'
      · exact h2 b h'
      · simp only [List.mem_singleton] at h'
        subst h'
        exact ⟨List.nodup_nil, List.nodup_nil⟩

theorem accScanString_inv (acc : List NetworkInterface) (nm s : String)
    (h : accInv acc) : accInv (accScanString acc nm s) := by
  obtain ⟨h1, h2⟩ := h
  unfold accScanString
  constructor
  · have : (acc.map (fun b =>
        if b.name == nm then
          { b with cidrs := dedupAppendAll b.cidrs (findAllCIDR s),
                   ips := dedupAppendAll b.ips (findAllIPv4 s) }
        else b)).map (fun b => b.name) = acc.map (fun b => b.name) := by
      rw [List.map_map]
      apply List.map_congr_left
      intro b _
      by_cases hb : b.name = nm <;> simp [hb]
    rw [this]
    exact h1
  · intro b hb
    obtain ⟨b', hb', heq⟩ := List.mem_map.mp hb
    by_cases hn : b'.name = nm
    · simp only [hn, beq_self_eq_true, if_pos] at heq
      subst heq
      exact ⟨dedupAppendAll_nodup _ _ (h2 b' hb').1, dedupAppendAll_nodup _ _ (h2 b' hb').2⟩
    · rw [if_neg (by simpa using hn)] at heq
      subst heq
      exact h2 b' hb'

theorem harvestParent_inv (acc : List NetworkInterface) (nm : String)
    (parent : List (String × Y)) (h : accInv acc) :
    accInv (harvestParent acc nm parent) := by
  unfold harvestParent
  induction parent generalizing acc with
  | nil => simpa
  | cons kv rest ih =>
    simp only [List.foldl_cons]
    apply ih
    cases kv.2 <;> simp only [] <;> first
      | exact h
      | (split
         · exact accScanString_inv _ _ _ h
         · exact h)

theorem tokenSeed_inv (acc : List NetworkInterface) (path : List String) (val : Y)
    (h : accInv acc) : accInv (tokenSeed acc path val) := by
  unfold tokenSeed
  induction path generalizing acc with
  | nil => simpa
  | cons p rest ih =>
    simp only [List.foldl_cons]
    apply ih
    split
    · cases val <;> simp only [] <;> first
        | exact accEnsure_inv _ _ h
        | exact accScanString_inv _ _ _ (accEnsure_inv _ _ h)
    · exact h

theorem extractVisit_inv (acc : List NetworkInterface) (path : List String)
    (key : String) (parent : List (String × Y)) (val : Y) (h : accInv acc) :
    accInv (extractVisit acc path key parent val) := by
  unfold extractVisit
  apply tokenSeed_inv
  split
  · exact h
  · exact harvestParent_inv _ _ _ (accEnsure_inv _ _ h)

theorem exFold_inv :
    ∀ v : Y, ∀ (path : List String) (acc : List NetworkInterface),
      accInv acc → accInv (exFoldY v path acc) := by
  have h := ysize.induct
    (motive_1 := fun v => ∀ path acc, accInv acc → accInv (exFoldY v path acc))
    (motive_2 := fun xs => ∀ path idx acc, accInv acc → accInv (exFoldElems xs path idx acc))
    (motive_3 := fun es => ∀ parent path acc, accInv acc →
      accInv (exFoldEntries es parent path acc))
  apply h
  case case1 => intro v path acc hi; simpa [exFoldY]
  case case2 => intro v path acc hi; simpa [exFoldY]
  case case3 => intro v path acc hi; simpa [exFoldY]
  case case4 => intro path acc hi; simpa [exFoldY]
  case case5 => intro es ih path acc hi; exact ih es path acc hi
  case case6 => intro xs ih path acc hi; exact ih path 0 acc hi
  case case7 => intro parent path acc hi; simpa [exFoldEntries]
  case case8 =>
    intro k v r ihv ihr parent path acc hi
    simp only [exFoldEntries]
    exact ihr parent path _ (ihv _ _ (extractVisit_inv _ _ _ _ _ hi))
  case case9 => intro path idx acc hi; simpa [exFoldElems]
  case case10 =>
    intro v r ihv ihr path idx acc hi
    simp only [exFoldElems]
    exact ihr path _ _ (ihv _ _ hi)

theorem finalize_inv (acc : List NetworkInterface) (h : accInv acc) :
    ((finalizeIfaces acc).map (fun b => b.name)).Nodup ∧
    ∀ b ∈ finalizeIfaces acc, b.cidrs.Nodup ∧ b.ips.Nodup := by
  obtain ⟨h1, h2⟩ := h
  unfold finalizeIfaces
  set filtered := acc.filter (fun b => !(b.cidrs.isEmpty) || !(b.ips.isEmpty)) with hf
  set mapped := filtered.map (fun b =>
    { b with cidrs := insSortBy strLeB b.cidrs, ips := insSortBy strLeB b.ips }) with hm
  have hperm := insSortBy_perm (fun x y => strLeB x.name y.name) mapped
  constructor
  · have hsub : (filtered.map (fun b => b.name)).Sublist (acc.map (fun b => b.name)) :=
      List.Sublist.map _ (List.filter_sublist acc)
    have hnames : mapped.map (fun b => b.name) = filtered.map (fun b => b.name) := by
      rw [hm, List.map_map]
      rfl
    have : (mapped.map (fun b => b.name)).Nodup := by
      rw [hnames]; exact h1.sublist hsub
    exact ((hperm.map (fun b => b.name)).nodup_iff).mpr this
  · intro b hb
    have hb' : b ∈ mapped := hperm.mem_iff.mp hb
    obtain ⟨b0, hb0, heq⟩ := List.mem_map.mp hb'
    have hacc : b0 ∈ acc := List.mem_of_mem_filter hb0
    obtain ⟨hc, hi⟩ := h2 b0 hacc
    subst heq
    exact ⟨((insSortBy_perm strLeB b0.cidrs).nodup_iff).mpr hc,
           ((insSortBy_perm strLeB b0.ips).nodup_iff).mpr hi⟩

theorem extract_inv (obj : List (String × Y)) :
    ((extractNetworkInterfaces obj).map (fun b => b.name)).Nodup ∧
    ∀ b ∈ extractNetworkInterfaces obj, b.cidrs.Nodup ∧ b.ips.Nodup := by
  unfold extractNetworkInterfaces
  exact finalize_inv _ (exFold_inv _ _ _ ⟨List.nodup_nil, by simp⟩)

/-- All bindings of a list carrying a given name. -/
def nameFilter (l : List NetworkInterface) (x : String) : List NetworkInterface :=
  l.filter (fun b => b.name == x)

theorem nameFilter_eq_nil (l : List NetworkInterface) (x : String)
    (h : ∀ b ∈ l, b.name ≠ x) : nameFilter l x = [] := by
  induction l with
  | nil => rfl
  | cons j rest ih =>
    simp only [nameFilter, List.filter_cons]
    rw [if_neg (by simpa using h j (by simp))]
    exact ih (fun b hb => h b (by simp [hb]))

theorem nameFilter_singleton (l : List NetworkInterface) (x : String)
    (i : NetworkInterface) (hnd : (l.map (fun b => b.name)).Nodup)
    (hm : i ∈ l) (hx : i.name = x) : nameFilter l x = [i] := by
  induction l with
  | nil => cases hm
  | cons j rest ih =>
    simp only [List.map_cons, List.nodup_cons] at hnd
    rcases List.mem_cons.mp hm with heq | hmem
    · subst heq
      simp only [nameFilter, List.filter_cons, hx]
      rw [if_pos (by simp)]
      rw [show (List.filter (fun b => b.name == x) rest) = nameFilter rest x from rfl,
        nameFilter_eq_nil rest x]
      intro b hb hbx
      apply hnd.1
      rw [hx, ← hbx]
      exact List.mem_map_of_mem _ hb
    · have hjx : j.name ≠ x := by
        intro hj
        apply hnd.1
        rw [hj, ← hx]
        exact List.mem_map_of_mem _ hmem
      simp only [nameFilter, List.filter_cons]
      rw [if_neg (by simpa using hjx)]
      exact ih hnd.2 hmem

/-- Merge the lists of later same-named bindings into an earlier one
(describes the net effect of the `ifaceMap` loop on one name). -/
def mergeInto (b : NetworkInterface) (lv : List NetworkInterface) : NetworkInterface :=
  ⟨b.name, b.cidrs ++ lv.flatMap (fun i => i.cidrs), b.ips ++ lv.flatMap (fun i => i.ips)⟩

/-- Combined same-named content of an accumulator and a pending list. -/
def mergeComb : List NetworkInterface → List NetworkInterface → List NetworkInterface
  | [], [] => []
  | [], i :: rest => [mergeInto i rest]
  | b :: _, lv => [mergeInto b lv]

theorem nameFilter_map_pres (l : List NetworkInterface) (x : String)
    (f : NetworkInterface → NetworkInterface) (hf : ∀ b, (f b).name = b.name) :
    nameFilter (l.map f) x = (nameFilter l x).map f := by
  induction l with
  | nil => rfl
  | cons j rest ih =>
    simp only [nameFilter, List.map_cons, List.filter_cons] at *
    by_cases hj : j.name = x
    · rw [if_pos (by simp [hf, hj]), if_pos (by simp [hj]), List.map_cons, ih]
    · rw [if_neg (by simp [hf, hj]), if_neg (by simp [hj]), ih]

theorem nameFilter_any_iff (acc : List NetworkInterface) (x : String) :
    (acc.any (fun b => b.name == x) = true) ↔ nameFilter acc x ≠ [] := by
  constructor
  · intro h
    obtain ⟨b, hb, hbx⟩ := List.any_eq_true.mp h
    intro hnil
    have : b ∈ nameFilter acc x := List.mem_filter.mpr ⟨hb, hbx⟩
    simp [hnil] at this
  · intro h
    cases hf : nameFilter acc x with
    | nil => exact absurd hf h
    | cons b rest =>
      have hb : b ∈ nameFilter acc x := by simp [hf]
      obtain ⟨hmem, hbx⟩ := List.mem_filter.mp hb
      exact List.any_eq_true.mpr ⟨b, hmem, hbx⟩

theorem mergeAdd_filter (acc : List NetworkInterface) (i : NetworkInterface) (x : String)
    (hle : nameFilter acc x = [] ∨ ∃ b, nameFilter acc x = [b]) :
    nameFilter (mergeAdd acc i) x =
      (if i.name = x then
        (match nameFilter acc x with
         | [] => [i]
         | b :: _ => [⟨b.name, b.cidrs ++ i.cidrs, b.ips ++ i.ips⟩])
      else nameFilter acc x) := by
  unfold mergeAdd
  split
  · next hany =>
    rw [nameFilter_map_pres _ _ _ (by intro b; by_cases hb : b.name = i.name <;> simp [hb])]
    by_cases hix : i.name = x
    · subst hix
      rcases hle with hnil | ⟨b, hb⟩
      · exact absurd hnil ((nameFilter_any_iff acc i.name).mp hany)
      · rw [hb]
        have hbn : b.name = i.name := by
          have : b ∈ nameFilter acc i.name := by simp [hb]
          simpa using (List.mem_filter.mp this).2
        simp [hbn]
    · rw [if_neg hix]
      rcases hle with hnil | ⟨b, hb⟩
      · simp [hnil]
      · have hbn : b.name = x := by
          have : b ∈ nameFilter acc x := by simp [hb]
          simpa using (List.mem_filter.mp this).2
        rw [hb]
        simp only [List.map_cons, List.map_nil]
        rw [if_neg (by simp [hbn]; exact fun h => hix h.symm)]
  · next hany =>
    have hnil : nameFilter acc i.name = [] := by
      by_contra h
      exact hany ((nameFilter_any_iff acc i.name).mpr h)
    simp only [nameFilter, List.filter_append]
    by_cases hix : i.name = x
    · subst hix
      rw [show List.filter (fun b => b.name == i.name) acc = nameFilter acc i.name from rfl,
        hnil]
      simp [nameFilter]
    · rw [if_neg hix]
      have hone : List.filter (fun b => b.name == x) [i] = [] := by simp [hix]
      rw [hone, List.append_nil]

theorem nameFilter_def (l : List NetworkInterface) (x : String) :
    nameFilter l x = l.filter (fun b => b.name == x) := rfl

theorem mergeFold_char :
    ∀ (l acc : List NetworkInterface) (x : String),
      (nameFilter acc x = [] ∨ ∃ b, nameFilter acc x = [b]) →
      nameFilter (l.foldl mergeAdd acc) x = mergeComb (nameFilter acc x) (nameFilter l x) := by
  intro l
  induction l with
  | nil =>
    intro acc x hle
    rw [List.foldl_nil]
    rcases hle with hnil | ⟨b, hb⟩
    · rw [hnil]; rfl
    · rw [hb, show nameFilter [] x = ([] : List NetworkInterface) from rfl]
      simp [mergeComb, mergeInto]
  | cons i rest ih =>
    intro acc x hle
    have hstep := mergeAdd_filter acc i x hle
    simp only [List.foldl_cons]
    have hcons : nameFilter (i :: rest) x =
        (if i.name = x then i :: nameFilter rest x else nameFilter rest x) := by
      simp only [nameFilter, List.filter_cons]
      by_cases hix : i.name = x
      · rw [if_pos (by simpa using hix), if_pos hix]
      · rw [if_neg (by simpa using hix), if_neg hix]
    by_cases hix : i.name = x
    · rw [if_pos hix] at hstep
      rcases hle with hnil | ⟨b, hb⟩
      · rw [hnil] at hstep
        rw [ih _ x (Or.inr ⟨i, hstep⟩), hstep, hcons, if_pos hix, hnil]
        simp [mergeComb, mergeInto]
      · rw [hb] at hstep
        rw [ih _ x (Or.inr ⟨_, hstep⟩), hstep, hcons, if_pos hix, hb]
        simp [mergeComb, mergeInto, List.flatMap_cons]
    · rw [if_neg hix] at hstep
      rw [ih _ x (by rw [hstep]; exact hle), hstep, hcons, if_neg hix]

theorem mergeIfaces_filter (l : List NetworkInterface) (x : String)
    (i1 i2 : NetworkInterface) (hf : nameFilter l x = [i1, i2]) :
    nameFilter (mergeIfacesByName l) x =
      [⟨i1.name, insSortBy strLeB (i1.cidrs ++ i2.cidrs),
        insSortBy strLeB (i1.ips ++ i2.ips)⟩] := by
  unfold mergeIfacesByName
  have hmerged := mergeFold_char l [] x (Or.inl rfl)
  rw [hf, show nameFilter [] x = ([] : List NetworkInterface) from rfl] at hmerged
  have hmerged2 : nameFilter (l.foldl mergeAdd []) x =
      [⟨i1.name, i1.cidrs ++ i2.cidrs, i1.ips ++ i2.ips⟩] := by
    rw [hmerged]
    simp [mergeComb, mergeInto]
  have hmap := nameFilter_map_pres (l.foldl mergeAdd []) x
    (fun b => { b with cidrs := insSortBy strLeB b.cidrs, ips := insSortBy strLeB b.ips })
    (by intro b; rfl)
  rw [hmerged2] at hmap
  have hperm : (nameFilter (insSortBy (fun a b => strLeB a.name b.name)
      ((l.foldl mergeAdd []).map (fun b =>
        { b with cidrs := insSortBy strLeB b.cidrs, ips := insSortBy strLeB b.ips }))) x).Perm
      (nameFilter ((l.foldl mergeAdd []).map (fun b =>
        { b with cidrs := insSortBy strLeB b.cidrs, ips := insSortBy strLeB b.ips })) x) := by
    rw [nameFilter_def, nameFilter_def]
    exact (insSortBy_perm _ _).filter _
  rw [hmap] at hperm
  have hsingle := List.perm_singleton.mp (by simpa using hperm)
  simpa using hsingle

/-- **C4**: when two documents of one scan batch both expose an
interface named `n2` whose extracted address sets are disjoint
("different addresses"), the batch's merged output contains exactly one
`n2` binding, and its CIDR/IP sets are the deduplicated (duplicate-free)
sorted unions of the two documents' sets; moreover, within a single
extraction pass every binding's CIDR and IP lists are duplicate-free. -/
theorem C4_merge_bindings (d1 d2 : List (String × Y)) (i1 i2 : NetworkInterface)
    (h1 : i1 ∈ extractNetworkInterfaces d1) (hn1 : i1.name = "n2")
    (h2 : i2 ∈ extractNetworkInterfaces d2) (hn2 : i2.name = "n2")
    (hdC : ∀ c ∈ i1.cidrs, c ∉ i2.cidrs) (hdI : ∀ c ∈ i1.ips, c ∉ i2.ips) :
    nameFilter (mergeIfacesByName
        (extractNetworkInterfaces d1 ++ extractNetworkInterfaces d2)) "n2" =
      [⟨"n2", insSortBy strLeB (i1.cidrs ++ i2.cidrs),
        insSortBy strLeB (i1.ips ++ i2.ips)⟩] ∧
    (insSortBy strLeB (i1.cidrs ++ i2.cidrs)).Nodup ∧
    (insSortBy strLeB (i1.ips ++ i2.ips)).Nodup ∧
    (∀ (d : List (String × Y)) (b : NetworkInterface),
      b ∈ extractNetworkInterfaces d → b.cidrs.Nodup ∧ b.ips.Nodup) := by
  have e1 := extract_inv d1
  have e2 := extract_inv d2
  have hf1 : nameFilter (extractNetworkInterfaces d1) "n2" = [i1] :=
    nameFilter_singleton _ _ _ e1.1 h1 hn1
  have hf2 : nameFilter (extractNetworkInterfaces d2) "n2" = [i2] :=
    nameFilter_singleton _ _ _ e2.1 h2 hn2
  have happ : nameFilter
      (extractNetworkInterfaces d1 ++ extractNetworkInterfaces d2) "n2" = [i1, i2] := by
    rw [nameFilter_def, List.filter_append, ← nameFilter_def, ← nameFilter_def, hf1, hf2]
    rfl
  refine ⟨?_, ?_, ?_, fun d b hb => (extract_inv d).2 b hb⟩
  · rw [mergeIfaces_filter _ _ i1 i2 happ, hn1]
  · exact ((insSortBy_perm strLeB _).nodup_iff).mpr
      (List.nodup_append.mpr ⟨(e1.2 i1 h1).1, (e2.2 i2 h2).1, hdC⟩)
  · exact ((insSortBy_perm strLeB _).nodup_iff).mpr
      (List.nodup_append.mpr ⟨(e1.2 i1 h1).2, (e2.2 i2 h2).2, hdI⟩)

/-- **C4 witness**: the merge behavior at two concrete documents both
exposing `n2` with different addresses. -/
theorem C4_merge_bindings_witness :
    nameFilter (mergeIfacesByName
        (extractNetworkInterfaces
          [("name", .s "n2"), ("address", .s "10.0.0.5/24"), ("gateway", .s "10.0.0.1")] ++
         extractNetworkInterfaces
          [("name", .s "n2"), ("address", .s "10.1.0.5/24"), ("gateway", .s "10.1.0.1")])) "n2" =
      [⟨"n2", insSortBy strLeB (["10.0.0.5/24"] ++ ["10.1.0.5/24"]),
        insSortBy strLeB (["10.0.0.1", "10.0.0.5"] ++ ["10.1.0.1", "10.1.0.5"])⟩] ∧
    (insSortBy strLeB (["10.0.0.5/24"] ++ ["10.1.0.5/24"])).Nodup ∧
    (insSortBy strLeB (["10.0.0.1", "10.0.0.5"] ++ ["10.1.0.1", "10.1.0.5"])).Nodup ∧
    (∀ (d : List (String × Y)) (b : NetworkInterface),
      b ∈ extractNetworkInterfaces d → b.cidrs.Nodup ∧ b.ips.Nodup) :=
  C4_merge_bindings
    [("name", .s "n2"), ("address", .s "10.0.0.5/24"), ("gateway", .s "10.0.0.1")]
    [("name", .s "n2"), ("address", .s "10.1.0.5/24"), ("gateway", .s "10.1.0.1")]
    ⟨"n2", ["10.0.0.5/24"], ["10.0.0.1", "10.0.0.5"]⟩
    ⟨"n2", ["10.1.0.5/24"], ["10.1.0.1", "10.1.0.5"]⟩
    (by decide) rfl (by decide) rfl (by decide) (by decide)

/-! ## Settledness machinery for the interface-targeted patch (C1) -/

theorem lookupE_setE_ne (es : List (String × Y)) (k k' : String) (v : Y)
    (h : k' ≠ k) : lookupE (setE es k v) k' = lookupE es k' := by
  induction es with
  | nil => rfl
  | cons kv rest ih =>
    obtain ⟨k0, v0⟩ := kv
    simp only [setE]
    by_cases h0 : k0 = k
    · rw [if_pos (by simpa using h0)]
      simp only [lookupE]
      rw [if_neg (by simp; intro hh; exact h (by rw [← hh, h0])),
          if_neg (by simp; intro hh; exact h (by rw [← hh, h0]))]
    · rw [if_neg (by simpa using h0)]
      simp only [lookupE]
      by_cases h1 : k0 = k'
      · rw [if_pos (by simpa using h1), if_pos (by simpa using h1)]
      · rw [if_neg (by simpa using h1), if_neg (by simpa using h1)]
        exact ih

theorem lookupE_setE_same (es : List (String × Y)) (k : String) (v v0 : Y)
    (h : lookupE es k = some v0) : lookupE (setE es k v) k = some v := by
  induction es with
  | nil => simp [lookupE] at h
  | cons kv rest ih =>
    obtain ⟨k0, w⟩ := kv
    simp only [setE, lookupE] at h ⊢
    by_cases h0 : k0 = k
    · rw [if_pos (by simpa using h0), lookupE, if_pos (by simpa using h0)]
    · rw [if_neg (by simpa using h0)] at h
      rw [if_neg (by simpa using h0), lookupE, if_neg (by simpa using h0)]
      exact ih h

theorem setE_self (es : List (String × Y)) (k : String) (v : Y)
    (h : lookupE es k = some v) : setE es k v = es := by
  induction es with
  | nil => rfl
  | cons kv rest ih =>
    obtain ⟨k0, w⟩ := kv
    simp only [setE, lookupE] at h ⊢
    by_cases h0 : k0 = k
    · rw [if_pos (by simpa using h0)]
      rw [if_pos (by simpa using h0)] at h
      simp at h
      rw [h]
    · rw [if_neg (by simpa using h0)]
      rw [if_neg (by simpa using h0)] at h
      rw [ih h]

theorem lookupE_setIfDiff_ne (es : List (String × Y)) (k k' d : String)
    (h : k' ≠ k) : lookupE (setIfDiff es k d).1 k' = lookupE es k' := by
  unfold setIfDiff
  repeat' split
  all_goals first
    | rfl
    | exact lookupE_setE_ne es k k' _ h

/-- Whether the value at `k` is a string (its content is irrelevant to
the conflict condition). -/
def isStrE (es : List (String × Y)) (k : String) : Bool :=
  match lookupE es k with
  | some (.s _) => true
  | _ => false

/-- The guarded write at `k` would be a no-op: either the entry is not a
string, or the desired value is empty or already present. -/
def fieldOK (es : List (String × Y)) (k d : String) : Bool :=
  match lookupE es k with
  | some (.s a) => d == "" || a == d
  | _ => true

theorem setIfDiff_noop (es : List (String × Y)) (k d : String)
    (h : fieldOK es k d = true) : setIfDiff es k d = (es, false) := by
  unfold setIfDiff
  unfold fieldOK at h
  split
  · next a heq =>
    rw [heq] at h
    rw [if_neg]
    simp only [Bool.and_eq_true, bne_iff_ne, ne_eq, not_and, not_not]
    intro hd
    rcases (by simpa using h : d = "" ∨ a = d) with h1 | h1
    · exact absurd h1 hd
    · exact h1
  · rfl

theorem setIfDiff_post (es : List (String × Y)) (k d : String) :
    fieldOK (setIfDiff es k d).1 k d = true := by
  unfold setIfDiff fieldOK
  cases hl : lookupE es k with
  | none => simp [hl]
  | some v =>
    cases v with
    | s a =>
      by_cases hw : (d != "" && a != d) = true
      · simp only [hl, hw, if_true]
        rw [lookupE_setE_same es k _ _ hl]
        simp only [Bool.and_eq_true, bne_iff_ne, ne_eq] at hw
        simp
      · simp only [hl, hw]
        simp only [Bool.and_eq_true, bne_iff_ne, ne_eq, not_and, not_not] at hw
        by_cases hd : d = ""
        · simp [hl, hd]
        · simp [hl, hw hd]
    | i n => simp [hl]
    | b bv => simp [hl]
    | null => simp [hl]
    | m es0 => simp [hl]
    | a xs => simp [hl]

theorem setIfDiff_fieldOK_ne (es : List (String × Y)) (k k' d d' : String)
    (h : k' ≠ k) : fieldOK (setIfDiff es k d).1 k' d' = fieldOK es k' d' := by
  simp only [fieldOK, lookupE_setIfDiff_ne es k k' d h]

theorem setIfDiff_isStrE (es : List (String × Y)) (k k' d : String) :
    isStrE (setIfDiff es k d).1 k' = isStrE es k' := by
  by_cases h : k' = k
  · subst h
    unfold setIfDiff
    split
    · next a heq =>
      split
      · simp only [isStrE]
        rw [lookupE_setE_same es k' _ _ heq, heq]
      · rfl
    · rfl
  · simp only [isStrE, lookupE_setIfDiff_ne es k k' d h]

theorem setIfDiff_false (es : List (String × Y)) (k d : String)
    (h : (setIfDiff es k d).2 = false) : (setIfDiff es k d).1 = es := by
  unfold setIfDiff at *
  cases hl : lookupE es k with
  | none => simp [hl]
  | some v =>
    cases v with
    | s a =>
      simp only [hl] at h ⊢
      by_cases hw : (d != "" && a != d) = true
      · rw [if_pos hw] at h
        simp at h
      · rw [if_neg hw] at h ⊢
    | i n => simp [hl]
    | b bv => simp [hl]
    | null => simp [hl]
    | m es0 => simp [hl]
    | a xs => simp [hl]

theorem fieldOK_setE_ne (es : List (String × Y)) (k k' d : String) (v : Y)
    (h : k' ≠ k) : fieldOK (setE es k v) k' d = fieldOK es k' d := by
  simp only [fieldOK, lookupE_setE_ne es k k' v h]

theorem isStrE_setE_ne (es : List (String × Y)) (k k' : String) (v : Y)
    (h : k' ≠ k) : isStrE (setE es k v) k' = isStrE es k' := by
  simp only [isStrE, lookupE_setE_ne es k k' v h]

/-- The `"name"` visit of this mapping would perform no write: for the
resolved desired values, every one of the four guarded writes is a
no-op. -/
def trigNoop (ips : List (String × IPInfo)) (es : List (String × Y)) : Bool :=
  match lookupE es "name" with
  | some (.s nm) =>
    match lookupIP ips (trimSpace nm) with
    | some ip =>
      fieldOK es "address" ip.address && fieldOK es "gateway" ip.gateway &&
      (match lookupE es "ipv4" with
       | some (.m im) => fieldOK im "address" ip.address && fieldOK im "gateway" ip.gateway
       | _ => true)
    | none => true
  | _ => true

mutual

/-- A value is settled when the interface-targeted patch would not
change it: every mapping's `"name"` visit is a no-op and all children
are settled. -/
def stY : Y → List (String × IPInfo) → Bool
  | .m es, ips => trigNoop ips es && stEntries es ips
  | .a xs, ips => stElems xs ips
  | _, _ => true

/-- All entry values settled. -/
def stEntries : List (String × Y) → List (String × IPInfo) → Bool
  | [], _ => true
  | (_, v) :: r, ips => stY v ips && stEntries r ips

/-- All elements settled. -/
def stElems : List Y → List (String × IPInfo) → Bool
  | [], _ => true
  | v :: r, ips => stY v ips && stElems r ips

end

/-- Local conflict-freedom of one mapping: when the mapping's `name`
resolves and its `ipv4` child mapping carries its own resolving `name`,
the two desired values for any `address`/`gateway` string entry of the
child agree whenever both are non-empty (the child's fields are the only
ones written by two distinct `"name"` visits). -/
def cfLocal (ips : List (String × IPInfo)) (es : List (String × Y)) : Bool :=
  match lookupE es "name" with
  | some (.s nm) =>
    match lookupIP ips (trimSpace nm) with
    | some ip =>
      match lookupE es "ipv4" with
      | some (.m im) =>
        match lookupE im "name" with
        | some (.s nm2) =>
          match lookupIP ips (trimSpace nm2) with
          | some ip2 =>
            (!(isStrE im "address") || ip.address == "" || ip2.address == "" ||
              ip.address == ip2.address) &&
            (!(isStrE im "gateway") || ip.gateway == "" || ip2.gateway == "" ||
              ip.gateway == ip2.gateway)
          | none => true
        | _ => true
      | _ => true
    | none => true
  | _ => true

mutual

/-- Conflict-freedom of a whole document: every mapping satisfies
`cfLocal`. -/
def cfY : Y → List (String × IPInfo) → Bool
  | .m es, ips => cfLocal ips es && cfEntries es ips
  | .a xs, ips => cfElems xs ips
  | _, _ => true

/-- Conflict-freedom of all entry values. -/
def cfEntries : List (String × Y) → List (String × IPInfo) → Bool
  | [], _ => true
  | (_, v) :: r, ips => cfY v ips && cfEntries r ips

/-- Conflict-freedom of all elements. -/
def cfElems : List Y → List (String × IPInfo) → Bool
  | [], _ => true
  | v :: r, ips => cfY v ips && cfElems r ips

end

theorem stEntries_lookup (es : List (String × Y)) (ips : List (String × IPInfo))
    (k : String) (v : Y) (hst : stEntries es ips = true) (hl : lookupE es k = some v) :
    stY v ips = true := by
  induction es with
  | nil => simp [lookupE] at hl
  | cons kv rest ih =>
    obtain ⟨k0, v0⟩ := kv
    simp only [stEntries, Bool.and_eq_true] at hst
    simp only [lookupE] at hl
    by_cases h0 : k0 = k
    · rw [if_pos (by simpa using h0)] at hl
      simp only [Option.some.injEq] at hl
      rw [← hl]
      exact hst.1
    · rw [if_neg (by simpa using h0)] at hl
      exact ih hst.2 hl

theorem stEntries_setE (es : List (String × Y)) (ips : List (String × IPInfo))
    (k : String) (v : Y) (hst : stEntries es ips = true) (hv : stY v ips = true) :
    stEntries (setE es k v) ips = true := by
  induction es with
  | nil => exact hst
  | cons kv rest ih =>
    obtain ⟨k0, v0⟩ := kv
    simp only [stEntries, Bool.and_eq_true] at hst
    simp only [setE]
    by_cases h0 : k0 = k
    · rw [if_pos (by simpa using h0)]
      simp only [stEntries, Bool.and_eq_true]
      exact ⟨hv, hst.2⟩
    · rw [if_neg (by simpa using h0)]
      simp only [stEntries, Bool.and_eq_true]
      exact ⟨hst.1, ih hst.2⟩

theorem stEntries_setIfDiff (es : List (String × Y)) (ips : List (String × IPInfo))
    (k d : String) (hst : stEntries es ips = true) :
    stEntries (setIfDiff es k d).1 ips = true := by
  unfold setIfDiff
  repeat' split
  all_goals first
    | exact hst
    | exact stEntries_setE es ips k _ hst (by rfl)

theorem trigger_lookup_ne (ips : List (String × IPInfo)) (es : List (String × Y))
    (k : String) (h1 : k ≠ "address") (h2 : k ≠ "gateway") (h3 : k ≠ "ipv4") :
    lookupE (trigger ips es).1 k = lookupE es k := by
  cases hn : lookupE es "name" with
  | none => simp [trigger, hn]
  | some v =>
    cases v with
    | s nm =>
      cases hip : lookupIP ips (trimSpace nm) with
      | none => simp [trigger, hn, hip]
      | some ip =>
        cases h4 : lookupE (setIfDiff (setIfDiff es "address" ip.address).1
            "gateway" ip.gateway).1 "ipv4" with
        | none =>
          simp only [trigger, hn, hip, h4]
          rw [lookupE_setIfDiff_ne _ _ _ _ h2, lookupE_setIfDiff_ne _ _ _ _ h1]
        | some w =>
          cases w <;> simp only [trigger, hn, hip, h4] <;>
            first
              | (rw [lookupE_setE_ne _ _ _ _ h3, lookupE_setIfDiff_ne _ _ _ _ h2,
                   lookupE_setIfDiff_ne _ _ _ _ h1])
              | (rw [lookupE_setIfDiff_ne _ _ _ _ h2, lookupE_setIfDiff_ne _ _ _ _ h1])
    | i n => simp [trigger, hn]
    | b bv => simp [trigger, hn]
    | null => simp [trigger, hn]
    | m es0 => simp [trigger, hn]
    | a xs => simp [trigger, hn]

theorem trigger_isStrE_ag (ips : List (String × IPInfo)) (es : List (String × Y))
    (k : String) (hk : k = "address" ∨ k = "gateway") :
    isStrE (trigger ips es).1 k = isStrE es k := by
  have hk4 : k ≠ "ipv4" := by rcases hk with h | h <;> subst h <;> decide
  cases hn : lookupE es "name" with
  | none => simp [trigger, hn]
  | some v =>
    cases v with
    | s nm =>
      cases hip : lookupIP ips (trimSpace nm) with
      | none => simp [trigger, hn, hip]
      | some ip =>
        cases h4 : lookupE (setIfDiff (setIfDiff es "address" ip.address).1
            "gateway" ip.gateway).1 "ipv4" with
        | none =>
          simp only [trigger, hn, hip, h4]
          rw [setIfDiff_isStrE, setIfDiff_isStrE]
        | some w =>
          cases w <;> simp only [trigger, hn, hip, h4] <;>
            first
              | (rw [isStrE_setE_ne _ _ _ _ hk4, setIfDiff_isStrE, setIfDiff_isStrE])
              | (rw [setIfDiff_isStrE, setIfDiff_isStrE])
    | i n => simp [trigger, hn]
    | b bv => simp [trigger, hn]
    | null => simp [trigger, hn]
    | m es0 => simp [trigger, hn]
    | a xs => simp [trigger, hn]

theorem trigger_post_noop (ips : List (String × IPInfo)) (es : List (String × Y)) :
    trigNoop ips (trigger ips es).1 = true := by
  cases hn : lookupE es "name" with
  | none => simp [trigger, trigNoop, hn]
  | some v =>
    cases v with
    | s nm =>
      cases hip : lookupIP ips (trimSpace nm) with
      | none => simp [trigger, trigNoop, hn, hip]
      | some ip =>
        cases h4 : lookupE (setIfDiff (setIfDiff es "address" ip.address).1
            "gateway" ip.gateway).1 "ipv4" with
        | none =>
          simp only [trigger, hn, hip, h4]
          have hname : lookupE (setIfDiff (setIfDiff es "address" ip.address).1
              "gateway" ip.gateway).1 "name" = some (.s nm) := by
            rw [lookupE_setIfDiff_ne _ _ _ _ (by decide),
              lookupE_setIfDiff_ne _ _ _ _ (by decide), hn]
          simp only [trigNoop, hname, hip, h4]
          rw [setIfDiff_fieldOK_ne _ _ _ _ _ (by decide), setIfDiff_post, setIfDiff_post]
          rfl
        | some w =>
          cases w with
          | m im =>
            simp only [trigger, hn, hip, h4]
            have hname : lookupE (setE (setIfDiff (setIfDiff es "address" ip.address).1
                "gateway" ip.gateway).1 "ipv4"
                (.m (setIfDiff (setIfDiff im "address" ip.address).1
                  "gateway" ip.gateway).1)) "name" = some (.s nm) := by
              rw [lookupE_setE_ne _ _ _ _ (by decide),
                lookupE_setIfDiff_ne _ _ _ _ (by decide),
                lookupE_setIfDiff_ne _ _ _ _ (by decide), hn]
            have hipv :
                lookupE (setE (setIfDiff (setIfDiff es "address" ip.address).1
                  "gateway" ip.gateway).1 "ipv4"
                  (.m (setIfDiff (setIfDiff im "address" ip.address).1
                    "gateway" ip.gateway).1)) "ipv4" =
                some (.m (setIfDiff (setIfDiff im "address" ip.address).1
                  "gateway" ip.gateway).1) :=
              lookupE_setE_same _ _ _ _ h4
            simp only [trigNoop, hname, hip, hipv]
            rw [fieldOK_setE_ne _ _ _ _ _ (by decide),
              setIfDiff_fieldOK_ne _ _ _ _ _ (by decide), setIfDiff_post,
              fieldOK_setE_ne _ _ _ _ _ (by decide), setIfDiff_post,
              setIfDiff_fieldOK_ne _ _ _ _ _ (by decide), setIfDiff_post, setIfDiff_post]
            rfl
          | s a =>
            simp only [trigger, hn, hip, h4]
            have hname : lookupE (setIfDiff (setIfDiff es "address" ip.address).1
                "gateway" ip.gateway).1 "name" = some (.s nm) := by
              rw [lookupE_setIfDiff_ne _ _ _ _ (by decide),
                lookupE_setIfDiff_ne _ _ _ _ (by decide), hn]
            simp only [trigNoop, hname, hip, h4]
            rw [setIfDiff_fieldOK_ne _ _ _ _ _ (by decide), setIfDiff_post, setIfDiff_post]
            rfl
          | i n =>
            simp only [trigger, hn, hip, h4]
            have hname : lookupE (setIfDiff (setIfDiff es "address" ip.address).1
                "gateway" ip.gateway).1 "name" = some (.s nm) := by
              rw [lookupE_setIfDiff_ne _ _ _ _ (by decide),
                lookupE_setIfDiff_ne _ _ _ _ (by decide), hn]
            simp only [trigNoop, hname, hip, h4]
            rw [setIfDiff_fieldOK_ne _ _ _ _ _ (by decide), setIfDiff_post, setIfDiff_post]
            rfl
          | b bv =>
            simp only [trigger, hn, hip, h4]
            have hname : lookupE (setIfDiff (setIfDiff es "address" ip.address).1
                "gateway" ip.gateway).1 "name" = some (.s nm) := by
              rw [lookupE_setIfDiff_ne _ _ _ _ (by decide),
                lookupE_setIfDiff_ne _ _ _ _ (by decide), hn]
            simp only [trigNoop, hname, hip, h4]
            rw [setIfDiff_fieldOK_ne _ _ _ _ _ (by decide), setIfDiff_post, setIfDiff_post]
            rfl
          | null =>
            simp only [trigger, hn, hip, h4]
            have hname : lookupE (setIfDiff (setIfDiff es "address" ip.address).1
                "gateway" ip.gateway).1 "name" = some (.s nm) := by
              rw [lookupE_setIfDiff_ne _ _ _ _ (by decide),
                lookupE_setIfDiff_ne _ _ _ _ (by decide), hn]
            simp only [trigNoop, hname, hip, h4]
            rw [setIfDiff_fieldOK_ne _ _ _ _ _ (by decide), setIfDiff_post, setIfDiff_post]
            rfl
          | a xs =>
            simp only [trigger, hn, hip, h4]
            have hname : lookupE (setIfDiff (setIfDiff es "address" ip.address).1
                "gateway" ip.gateway).1 "name" = some (.s nm) := by
              rw [lookupE_setIfDiff_ne _ _ _ _ (by decide),
                lookupE_setIfDiff_ne _ _ _ _ (by decide), hn]
            simp only [trigNoop, hname, hip, h4]
            rw [setIfDiff_fieldOK_ne _ _ _ _ _ (by decide), setIfDiff_post, setIfDiff_post]
            rfl
    | i n => simp [trigger, trigNoop, hn]
    | b bv => simp [trigger, trigNoop, hn]
    | null => simp [trigger, trigNoop, hn]
    | m es0 => simp [trigger, trigNoop, hn]
    | a xs => simp [trigger, trigNoop, hn]

theorem trigNoop_trigger (ips : List (String × IPInfo)) (es : List (String × Y))
    (h : trigNoop ips es = true) : trigger ips es = (es, false) := by
  cases hn : lookupE es "name" with
  | none => simp [trigger, hn]
  | some v =>
    cases v with
    | s nm =>
      cases hip : lookupIP ips (trimSpace nm) with
      | none => simp [trigger, hn, hip]
      | some ip =>
        simp only [trigNoop, hn, hip, Bool.and_eq_true] at h
        obtain ⟨⟨ha, hg⟩, hm⟩ := h
        have e1 : setIfDiff es "address" ip.address = (es, false) :=
          setIfDiff_noop _ _ _ ha
        have e2 : setIfDiff es "gateway" ip.gateway = (es, false) :=
          setIfDiff_noop _ _ _ hg
        cases h4 : lookupE es "ipv4" with
        | none => simp [trigger, hn, hip, e1, e2, h4]
        | some w =>
          cases w with
          | m im =>
            rw [h4] at hm
            simp only [Bool.and_eq_true] at hm
            obtain ⟨hia, hig⟩ := hm
            have e3 : setIfDiff im "address" ip.address = (im, false) :=
              setIfDiff_noop _ _ _ hia
            have e4 : setIfDiff im "gateway" ip.gateway = (im, false) :=
              setIfDiff_noop _ _ _ hig
            simp [trigger, hn, hip, e1, e2, h4, e3, e4, setE_self es "ipv4" (.m im) h4]
          | s a => simp [trigger, hn, hip, e1, e2, h4]
          | i n => simp [trigger, hn, hip, e1, e2, h4]
          | b bv => simp [trigger, hn, hip, e1, e2, h4]
          | null => simp [trigger, hn, hip, e1, e2, h4]
          | a xs => simp [trigger, hn, hip, e1, e2, h4]
    | i n => simp [trigger, hn]
    | b bv => simp [trigger, hn]
    | null => simp [trigger, hn]
    | m es0 => simp [trigger, hn]
    | a xs => simp [trigger, hn]

theorem setIfDiff_fieldOK_same (im : List (String × Y)) (k dOut dIn : String)
    (hok : fieldOK im k dIn = true)
    (hfree : dOut = "" ∨ dIn = "" ∨ dOut = dIn ∨ isStrE im k = false) :
    fieldOK (setIfDiff im k dOut).1 k dIn = true := by
  unfold setIfDiff
  cases hl : lookupE im k with
  | none => simpa [fieldOK, hl] using hok
  | some v =>
    cases v with
    | s a =>
      by_cases hw : (dOut != "" && a != dOut) = true
      · simp only [hl, hw, if_true]
        simp only [fieldOK]
        rw [lookupE_setE_same _ _ _ _ hl]
        simp only [Bool.and_eq_true, bne_iff_ne, ne_eq] at hw
        rcases hfree with h1 | h1 | h1 | h1
        · exact absurd h1 hw.1
        · simp [h1]
        · simp [h1]
        · rw [isStrE, hl] at h1
          simp at h1
      · simp only [hl, hw, if_neg]
        exact hok
    | i n => simpa [fieldOK, hl] using hok
    | b bv => simpa [fieldOK, hl] using hok
    | null => simpa [fieldOK, hl] using hok
    | m es0 => simpa [fieldOK, hl] using hok
    | a xs => simpa [fieldOK, hl] using hok

theorem trigger_stEntries (ips : List (String × IPInfo)) (X : List (String × Y))
    (hst : stEntries X ips = true) (hcf : cfLocal ips X = true) :
    stEntries (trigger ips X).1 ips = true := by
  cases hn : lookupE X "name" with
  | none => simpa [trigger, hn] using hst
  | some v =>
    cases v with
    | s nm =>
      cases hip : lookupIP ips (trimSpace nm) with
      | none => simpa [trigger, hn, hip] using hst
      | some ip =>
        have h1 : stEntries (setIfDiff X "address" ip.address).1 ips = true :=
          stEntries_setIfDiff _ _ _ _ hst
        have h2 : stEntries (setIfDiff (setIfDiff X "address" ip.address).1
            "gateway" ip.gateway).1 ips = true :=
          stEntries_setIfDiff _ _ _ _ h1
        cases h4 : lookupE (setIfDiff (setIfDiff X "address" ip.address).1
            "gateway" ip.gateway).1 "ipv4" with
        | none =>
          simp only [trigger, hn, hip, h4]
          exact h2
        | some w =>
          cases w with
          | m im =>
            simp only [trigger, hn, hip, h4]
            refine stEntries_setE _ _ _ _ h2 ?hv
            have him : stY (.m im) ips = true :=
              stEntries_lookup _ _ _ _ h2 h4
            simp only [stY, Bool.and_eq_true] at him
            obtain ⟨himnoop, himst⟩ := him
            have hstt2 : stEntries (setIfDiff (setIfDiff im "address" ip.address).1
                "gateway" ip.gateway).1 ips = true :=
              stEntries_setIfDiff _ _ _ _ (stEntries_setIfDiff _ _ _ _ himst)
            have hn2eq : lookupE (setIfDiff (setIfDiff im "address" ip.address).1
                "gateway" ip.gateway).1 "name" = lookupE im "name" := by
              rw [lookupE_setIfDiff_ne _ _ _ _ (by decide),
                lookupE_setIfDiff_ne _ _ _ _ (by decide)]
            have h4m : lookupE X "ipv4" = some (.m im) := by
              rw [← lookupE_setIfDiff_ne X "address" "ipv4" ip.address (by decide),
                ← lookupE_setIfDiff_ne (setIfDiff X "address" ip.address).1
                  "gateway" "ipv4" ip.gateway (by decide)]
              exact h4
            have htn2 : trigNoop ips (setIfDiff (setIfDiff im "address" ip.address).1
                "gateway" ip.gateway).1 = true := by
              cases hn2 : lookupE im "name" with
              | none => simp [trigNoop, hn2eq, hn2]
              | some v2 =>
                cases v2 with
                | s nm2 =>
                  cases hip2 : lookupIP ips (trimSpace nm2) with
                  | none => simp [trigNoop, hn2eq, hn2, hip2]
                  | some ip2 =>
                    simp only [trigNoop, hn2, hip2, Bool.and_eq_true] at himnoop
                    obtain ⟨⟨hia, hig⟩, hi4arm⟩ := himnoop
                    simp only [cfLocal, hn, hip, h4m, hn2, hip2,
                      Bool.and_eq_true, Bool.or_eq_true, Bool.not_eq_true',
                      beq_iff_eq] at hcf
                    obtain ⟨hcfa, hcfg⟩ := hcf
                    have hA : fieldOK (setIfDiff (setIfDiff im "address" ip.address).1
                        "gateway" ip.gateway).1 "address" ip2.address = true := by
                      rw [setIfDiff_fieldOK_ne _ _ _ _ _ (by decide)]
                      refine setIfDiff_fieldOK_same _ _ _ _ hia ?hfa
                      rcases hcfa with ((h | h) | h) | h
                      · exact Or.inr (Or.inr (Or.inr h))
                      · exact Or.inl h
                      · exact Or.inr (Or.inl h)
                      · exact Or.inr (Or.inr (Or.inl h))
                    have hG : fieldOK (setIfDiff (setIfDiff im "address" ip.address).1
                        "gateway" ip.gateway).1 "gateway" ip2.gateway = true := by
                      refine setIfDiff_fieldOK_same _ _ _ _ ?hokg ?hfg
                      · rw [setIfDiff_fieldOK_ne _ _ _ _ _ (by decide)]
                        exact hig
                      · rw [setIfDiff_isStrE]
                        rcases hcfg with ((h | h) | h) | h
                        · exact Or.inr (Or.inr (Or.inr h))
                        · exact Or.inl h
                        · exact Or.inr (Or.inl h)
                        · exact Or.inr (Or.inr (Or.inl h))
                    have harm : lookupE (setIfDiff (setIfDiff im "address" ip.address).1
                        "gateway" ip.gateway).1 "ipv4" = lookupE im "ipv4" := by
                      rw [lookupE_setIfDiff_ne _ _ _ _ (by decide),
                        lookupE_setIfDiff_ne _ _ _ _ (by decide)]
                    simp [trigNoop, hn2eq, hn2, hip2, harm, hA, hG, hi4arm]
                | i n2 => simp [trigNoop, hn2eq, hn2]
                | b b2 => simp [trigNoop, hn2eq, hn2]
                | null => simp [trigNoop, hn2eq, hn2]
                | m m2 => simp [trigNoop, hn2eq, hn2]
                | a a2 => simp [trigNoop, hn2eq, hn2]
            simp only [stY, Bool.and_eq_true]
            exact ⟨htn2, hstt2⟩
          | s a => simp only [trigger, hn, hip, h4]; exact h2
          | i n => simp only [trigger, hn, hip, h4]; exact h2
          | b bv => simp only [trigger, hn, hip, h4]; exact h2
          | null => simp only [trigger, hn, hip, h4]; exact h2
          | a xs => simp only [trigger, hn, hip, h4]; exact h2
    | i n => simpa [trigger, hn] using hst
    | b bv => simpa [trigger, hn] using hst
    | null => simpa [trigger, hn] using hst
    | m es0 => simpa [trigger, hn] using hst
    | a xs => simpa [trigger, hn] using hst

theorem lookupE_patch (es : List (String × Y)) (ips : List (String × IPInfo))
    (k : String) :
    lookupE (patchEntriesGo es ips).1 k =
      (lookupE es k).map (fun v => (patchY v ips).1) := by
  induction es with
  | nil => rfl
  | cons kv rest ih =>
    obtain ⟨k0, v0⟩ := kv
    simp only [patchEntriesGo, lookupE]
    by_cases h0 : (k0 == k) = true
    · rw [if_pos h0, if_pos h0]
      rfl
    · rw [if_neg h0, if_neg h0]
      exact ih

theorem patchY_str (v : Y) (ips : List (String × IPInfo)) (a : String) :
    (patchY v ips).1 = .s a ↔ v = .s a := by
  cases v <;> simp [patchY]

theorem patchY_map (v : Y) (ips : List (String × IPInfo))
    (im : List (String × Y)) :
    (patchY v ips).1 = .m im ↔
      ∃ es0, v = .m es0 ∧ im = (trigger ips (patchEntriesGo es0 ips).1).1 := by
  cases v <;> simp [patchY] <;> exact eq_comm

theorem isStrE_patch (es : List (String × Y)) (ips : List (String × IPInfo))
    (k : String) :
    isStrE (patchEntriesGo es ips).1 k = isStrE es k := by
  simp only [isStrE, lookupE_patch]
  cases hl : lookupE es k with
  | none => rfl
  | some v => cases v <;> rfl

theorem cfLocal_patch (ips : List (String × IPInfo)) (es : List (String × Y))
    (hcf : cfLocal ips es = true) :
    cfLocal ips (patchEntriesGo es ips).1 = true := by
  cases hn : lookupE es "name" with
  | none =>
    have hE : lookupE (patchEntriesGo es ips).1 "name" = none := by
      rw [lookupE_patch, hn]; rfl
    simp [cfLocal, hE]
  | some v =>
    cases v with
    | i n =>
      have hE : lookupE (patchEntriesGo es ips).1 "name" = some (.i n) := by
        rw [lookupE_patch, hn]; rfl
      simp [cfLocal, hE]
    | b bv =>
      have hE : lookupE (patchEntriesGo es ips).1 "name" = some (.b bv) := by
        rw [lookupE_patch, hn]; rfl
      simp [cfLocal, hE]
    | null =>
      have hE : lookupE (patchEntriesGo es ips).1 "name" = some .null := by
        rw [lookupE_patch, hn]; rfl
      simp [cfLocal, hE]
    | m es0 =>
      have hE : lookupE (patchEntriesGo es ips).1 "name" =
          some (.m (trigger ips (patchEntriesGo es0 ips).1).1) := by
        rw [lookupE_patch, hn]; rfl
      simp [cfLocal, hE]
    | a xs =>
      have hE : lookupE (patchEntriesGo es ips).1 "name" =
          some (.a (patchElemsGo xs ips).1) := by
        rw [lookupE_patch, hn]; rfl
      simp [cfLocal, hE]
    | s nm =>
      have hE : lookupE (patchEntriesGo es ips).1 "name" = some (.s nm) := by
        rw [lookupE_patch, hn]; rfl
      cases hip : lookupIP ips (trimSpace nm) with
      | none => simp [cfLocal, hE, hip]
      | some ip =>
        cases h4 : lookupE es "ipv4" with
        | none =>
          have hE4 : lookupE (patchEntriesGo es ips).1 "ipv4" = none := by
            rw [lookupE_patch, h4]; rfl
          simp [cfLocal, hE, hip, hE4]
        | some w =>
          cases w with
          | s a =>
            have hE4 : lookupE (patchEntriesGo es ips).1 "ipv4" = some (.s a) := by
              rw [lookupE_patch, h4]; rfl
            simp [cfLocal, hE, hip, hE4]
          | i n =>
            have hE4 : lookupE (patchEntriesGo es ips).1 "ipv4" = some (.i n) := by
              rw [lookupE_patch, h4]; rfl
            simp [cfLocal, hE, hip, hE4]
          | b bv =>
            have hE4 : lookupE (patchEntriesGo es ips).1 "ipv4" = some (.b bv) := by
              rw [lookupE_patch, h4]; rfl
            simp [cfLocal, hE, hip, hE4]
          | null =>
            have hE4 : lookupE (patchEntriesGo es ips).1 "ipv4" = some .null := by
              rw [lookupE_patch, h4]; rfl
            simp [cfLocal, hE, hip, hE4]
          | a xs =>
            have hE4 : lookupE (patchEntriesGo es ips).1 "ipv4" =
                some (.a (patchElemsGo xs ips).1) := by
              rw [lookupE_patch, h4]; rfl
            simp [cfLocal, hE, hip, hE4]
          | m im =>
            have hE4 : lookupE (patchEntriesGo es ips).1 "ipv4" =
                some (.m (trigger ips (patchEntriesGo im ips).1).1) := by
              rw [lookupE_patch, h4]; rfl
            cases hn2 : lookupE im "name" with
            | none =>
              have hPn : lookupE (trigger ips (patchEntriesGo im ips).1).1 "name" =
                  none := by
                rw [trigger_lookup_ne _ _ _ (by decide) (by decide) (by decide),
                  lookupE_patch, hn2]; rfl
              simp [cfLocal, hE, hip, hE4, hPn]
            | some v2 =>
              cases v2 with
              | s nm2 =>
                have hPn : lookupE (trigger ips (patchEntriesGo im ips).1).1 "name" =
                    some (.s nm2) := by
                  rw [trigger_lookup_ne _ _ _ (by decide) (by decide) (by decide),
                    lookupE_patch, hn2]; rfl
                cases hip2 : lookupIP ips (trimSpace nm2) with
                | none => simp [cfLocal, hE, hip, hE4, hPn, hip2]
                | some ip2 =>
                  have hsa : isStrE (trigger ips (patchEntriesGo im ips).1).1
                      "address" = isStrE im "address" := by
                    rw [trigger_isStrE_ag _ _ _ (Or.inl rfl), isStrE_patch]
                  have hsg : isStrE (trigger ips (patchEntriesGo im ips).1).1
                      "gateway" = isStrE im "gateway" := by
                    rw [trigger_isStrE_ag _ _ _ (Or.inr rfl), isStrE_patch]
                  simp only [cfLocal, hn, hip, h4, hn2, hip2] at hcf
                  simp only [cfLocal, hE, hip, hE4, hPn, hip2, hsa, hsg]
                  exact hcf
              | i n2 =>
                have hPn : lookupE (trigger ips (patchEntriesGo im ips).1).1 "name" =
                    some (.i n2) := by
                  rw [trigger_lookup_ne _ _ _ (by decide) (by decide) (by decide),
                    lookupE_patch, hn2]; rfl
                simp [cfLocal, hE, hip, hE4, hPn]
              | b b2 =>
                have hPn : lookupE (trigger ips (patchEntriesGo im ips).1).1 "name" =
                    some (.b b2) := by
                  rw [trigger_lookup_ne _ _ _ (by decide) (by decide) (by decide),
                    lookupE_patch, hn2]; rfl
                simp [cfLocal, hE, hip, hE4, hPn]
              | null =>
                have hPn : lookupE (trigger ips (patchEntriesGo im ips).1).1 "name" =
                    some .null := by
                  rw [trigger_lookup_ne _ _ _ (by decide) (by decide) (by decide),
                    lookupE_patch, hn2]; rfl
                simp [cfLocal, hE, hip, hE4, hPn]
              | m m2 =>
                have hPn : lookupE (trigger ips (patchEntriesGo im ips).1).1 "name" =
                    some (.m (trigger ips (patchEntriesGo m2 ips).1).1) := by
                  rw [trigger_lookup_ne _ _ _ (by decide) (by decide) (by decide),
                    lookupE_patch, hn2]; rfl
                simp [cfLocal, hE, hip, hE4, hPn]
              | a a2 =>
                have hPn : lookupE (trigger ips (patchEntriesGo im ips).1).1 "name" =
                    some (.a (patchElemsGo a2 ips).1) := by
                  rw [trigger_lookup_ne _ _ _ (by decide) (by decide) (by decide),
                    lookupE_patch, hn2]; rfl
                simp [cfLocal, hE, hip, hE4, hPn]

theorem patchY_settled :
    ∀ v : Y, ∀ ips, stY v ips = true → patchY v ips = (v, false) := by
  have h := ysize.induct
    (motive_1 := fun v => ∀ ips, stY v ips = true → patchY v ips = (v, false))
    (motive_2 := fun xs => ∀ ips, stElems xs ips = true →
      patchElemsGo xs ips = (xs, false))
    (motive_3 := fun es => ∀ ips, stEntries es ips = true →
      patchEntriesGo es ips = (es, false))
  apply h
  case case1 => intro a ips _; rfl
  case case2 => intro n ips _; rfl
  case case3 => intro b ips _; rfl
  case case4 => intro ips _; rfl
  case case5 =>
    intro es ih ips hst
    simp only [stY, Bool.and_eq_true] at hst
    obtain ⟨hnoop, hrest⟩ := hst
    simp [patchY, ih _ hrest, trigNoop_trigger _ _ hnoop]
  case case6 =>
    intro xs ih ips hst
    simp only [stY] at hst
    simp [patchY, ih _ hst]
  case case7 => intro ips _; rfl
  case case8 =>
    intro k v r ih1 ih2 ips hst
    simp only [stEntries, Bool.and_eq_true] at hst
    simp [patchEntriesGo, ih1 _ hst.1, ih2 _ hst.2]
  case case9 => intro ips _; rfl
  case case10 =>
    intro v r ih1 ih2 ips hst
    simp only [stElems, Bool.and_eq_true] at hst
    simp [patchElemsGo, ih1 _ hst.1, ih2 _ hst.2]

theorem patchY_cf_settled :
    ∀ v : Y, ∀ ips, cfY v ips = true → stY (patchY v ips).1 ips = true := by
  have h := ysize.induct
    (motive_1 := fun v => ∀ ips, cfY v ips = true → stY (patchY v ips).1 ips = true)
    (motive_2 := fun xs => ∀ ips, cfElems xs ips = true →
      stElems (patchElemsGo xs ips).1 ips = true)
    (motive_3 := fun es => ∀ ips, cfEntries es ips = true →
      stEntries (patchEntriesGo es ips).1 ips = true)
  apply h
  case case1 => intro a ips _; rfl
  case case2 => intro n ips _; rfl
  case case3 => intro b ips _; rfl
  case case4 => intro ips _; rfl
  case case5 =>
    intro es ih ips hcf
    simp only [cfY, Bool.and_eq_true] at hcf
    obtain ⟨hloc, hrest⟩ := hcf
    simp only [patchY, stY, Bool.and_eq_true]
    exact ⟨trigger_post_noop _ _,
      trigger_stEntries _ _ (ih _ hrest) (cfLocal_patch _ _ hloc)⟩
  case case6 =>
    intro xs ih ips hcf
    simp only [cfY] at hcf
    simp only [patchY, stY]
    exact ih _ hcf
  case case7 => intro ips _; rfl
  case case8 =>
    intro k v r ih1 ih2 ips hcf
    simp only [cfEntries, Bool.and_eq_true] at hcf
    simp only [patchEntriesGo, stEntries, Bool.and_eq_true]
    exact ⟨ih1 _ hcf.1, ih2 _ hcf.2⟩
  case case9 => intro ips _; rfl
  case case10 =>
    intro v r ih1 ih2 ips hcf
    simp only [cfElems, Bool.and_eq_true] at hcf
    simp only [patchElemsGo, stElems, Bool.and_eq_true]
    exact ⟨ih1 _ hcf.1, ih2 _ hcf.2⟩

theorem runPatchTarget_NFD (jparse : String → Option (List (String × Y)))
    (jmarshal : List (String × Y) → String) (ips : List (String × IPInfo))
    (dryRun : Bool) (disk : List (String × Y)) :
    runPatchTarget jparse jmarshal ips dryRun "NFDeployment" disk =
      (if (patchByInterfaceContext ips disk).2 && !dryRun
        then (patchByInterfaceContext ips disk).1 else disk,
       (patchByInterfaceContext ips disk).2) := by
  have e1 : (("NFDeployment" : String) == "") = false := by decide
  have e2 : (("NFDeployment" : String) == "NFDeployment") = true := by decide
  have e3 : (("NFDeployment" : String) == "NetworkAttachmentDefinition") = false := by
    decide
  simp [runPatchTarget, e1, e2, e3]

/-- C1 (counterexample): a nested `ipv4` mapping that carries its own
resolving `name` with a conflicting desired address makes the patch
flip-flop: the second invocation of the interface-targeted patch with
identical inputs on the persisted document still reports
`changed = true`. -/
theorem C1_counterexample :
    (runPatchTarget (fun _ => none) (fun _ => "")
      [("n2", ⟨"1.1.1.1/24", ""⟩), ("n3", ⟨"2.2.2.2/24", ""⟩)]
      false "NFDeployment"
      (runPatchTarget (fun _ => none) (fun _ => "")
        [("n2", ⟨"1.1.1.1/24", ""⟩), ("n3", ⟨"2.2.2.2/24", ""⟩)]
        false "NFDeployment"
        [("name", Y.s "n2"),
         ("ipv4", Y.m [("name", Y.s "n3"),
                       ("address", Y.s "2.2.2.2/24")])]).1).2 = true := by
  decide

/-- C1: on conflict-free documents — no nested `ipv4` mapping carries its
own resolving `name` whose desired values disagree with the parent's —
the interface-targeted patch with `dryRun = false` is idempotent: a
second invocation with identical inputs on the persisted document
reports `changed = false` (values already equal to the desired value
are never written, and absent keys are never created). -/
theorem C1_idempotent (jparse : String → Option (List (String × Y)))
    (jmarshal : List (String × Y) → String) (ips : List (String × IPInfo))
    (disk : List (String × Y)) (hcf : cfY (.m disk) ips = true) :
    (runPatchTarget jparse jmarshal ips false "NFDeployment"
      (runPatchTarget jparse jmarshal ips false "NFDeployment" disk).1).2 = false := by
  have hB : stY (patchY (.m disk) ips).1 ips = true := patchY_cf_settled _ _ hcf
  have hbr : patchY (.m disk) ips =
      (.m (patchByInterfaceContext ips disk).1, (patchByInterfaceContext ips disk).2) :=
    rfl
  rw [hbr] at hB
  have hA : patchY (.m (patchByInterfaceContext ips disk).1) ips =
      (.m (patchByInterfaceContext ips disk).1, false) := patchY_settled _ _ hB
  have hA2 : patchByInterfaceContext ips (patchByInterfaceContext ips disk).1 =
      ((patchByInterfaceContext ips disk).1, false) := by
    rw [show patchY (.m (patchByInterfaceContext ips disk).1) ips =
      (.m (patchByInterfaceContext ips (patchByInterfaceContext ips disk).1).1,
       (patchByInterfaceContext ips (patchByInterfaceContext ips disk).1).2) from rfl]
      at hA
    simp only [Prod.mk.injEq, Y.m.injEq] at hA
    rw [Prod.ext_iff]
    exact hA
  rw [runPatchTarget_NFD, runPatchTarget_NFD]
  simp only [Bool.not_false, Bool.and_true]
  by_cases hp : (patchByInterfaceContext ips disk).2 = true
  · rw [if_pos hp, hA2]
  · rw [if_neg hp]
    simpa using hp

theorem C1_idempotent_witness :
    cfY (.m [("name", Y.s "n2"), ("address", Y.s "10.0.0.5/24"),
      ("gateway", Y.s "10.0.0.1")])
      [("n2", ⟨"10.10.1.10/24", "10.10.1.1"⟩)] = true ∧
    (runPatchTarget (fun _ => none) (fun _ => "")
      [("n2", ⟨"10.10.1.10/24", "10.10.1.1"⟩)] false "NFDeployment"
      (runPatchTarget (fun _ => none) (fun _ => "")
        [("n2", ⟨"10.10.1.10/24", "10.10.1.1"⟩)] false "NFDeployment"
        [("name", Y.s "n2"), ("address", Y.s "10.0.0.5/24"),
         ("gateway", Y.s "10.0.0.1")]).1).2 = false :=
  ⟨by decide, C1_idempotent _ _ _ _ (by decide)⟩
